import Mathlib

/-!
# twigots: paginated retrieval of ticket listings

A shallow embedding of `client.go`, `listing.go`, `filter/filter.go` and the function
`ValidateURL` of `flaresolverr.go`.

* `time.Time` is an instant on the integer line; the zero time is `0`.
* A Go `error` is a value of `GoError`; `nil` is `none`.
* A Go slice result is `Option (List _)`: `none` is the nil slice, `some []` an empty,
  allocated one.
* The HTTP transport, `json.Unmarshal`, `time.Now`, `Countries.Contains` and `FeedUrl` are not
  part of the embedded files: they are fields of `Env`.  The transport sees the list of the
  URLs requested before (the call log), so its answers may change from call to call.
* The unbounded `for` loop of `FetchTicketListings` takes a fuel argument; running out of
  fuel is the outcome `Outcome.running`.
* The call `make(TicketListings, 0, cap)` panics for a negative capacity and for a capacity
  above the allocation limit of the platform, the field `MakeLimit` of `Env`.
* `Price` is an integer amount of minor units.  The methods `Discount` and `DiscountString`
  compute in `float64` and are not embedded.
* A predicate of the filter package is a pure function from listings to `Bool`.
* The library functions `url.Parse` and `strings.ToLower` are fields of `UrlLib`.
-/

namespace Twigots

/-! ## Data model -/

/-- A Go error: `errors.New` / `fmt.Errorf` without `%w` (`new`), or `fmt.Errorf` wrapping a
cause with `%w` after the given text (`wrap`). -/
inductive GoError where
  | new (msg : String)
  | wrap (msg : String) (err : GoError)
  deriving DecidableEq, Repr

/-- An instant (`time.Time`), as a whole number of time units since the zero time. -/
abbrev Time := Int

/-- The method `time.Time.IsZero`. -/
def Time.IsZero (t : Time) : Bool := decide (t = 0)

/-- The method `time.Time.After`: `t.After(u)` reports whether `t` is later than `u`. -/
def Time.After (t u : Time) : Bool := decide (u < t)

/-- The method `time.Time.Before`: `t.Before(u)` reports whether `t` is earlier than `u`. -/
def Time.Before (t u : Time) : Bool := decide (t < u)

/-- The type `UnixTime` embeds a `time.Time` (the code reads `listing.CreatedAt.Time`). -/
structure UnixTime where
  Time : Time
  deriving DecidableEq, Repr

/-- Modelled from the spec: the type `Price` is declared outside the embedded files; the spec
describes it as a fixed-point amount, an integer number of minor units. -/
structure Price where
  Amount : Int
  deriving DecidableEq, Repr

/-- Modelled from the spec: the type `Event` is declared outside the embedded files; the spec
describes an event descriptor with an id and a name. -/
structure Event where
  Id : String
  Name : String
  deriving DecidableEq, Repr

/-- Modelled from the spec: the type `Tour` is declared outside the embedded files; the spec
only calls it a tour descriptor. -/
structure Tour where
  Id : String
  Name : String
  deriving DecidableEq, Repr

/-- The struct `TicketListing` of `listing.go`. -/
structure TicketListing where
  Id : String
  CreatedAt : UnixTime
  ExpiresAt : UnixTime
  NumTickets : Int
  TotalPriceExclFee : Price
  TwicketsFee : Price
  OriginalTotalPrice : Price
  SellerWillConsiderOffers : Bool
  TicketType : String
  SeatAssigned : Bool
  Section : String
  Row : String
  Event : Event
  Tour : Tour
  deriving DecidableEq, Repr

/-- The slice type `TicketListings`. -/
abbrev TicketListings := List TicketListing

/-- The enum value type `Country`; the code reads its field `Value`. -/
structure Country where
  Value : String
  deriving DecidableEq, Repr

/-- The enum value type `Region`. -/
structure Region where
  Value : String
  deriving DecidableEq, Repr

/-- The struct `FetchTicketListingsInput` of `client.go`. -/
structure FetchTicketListingsInput where
  Country : Country
  Regions : List Region
  MaxNumber : Int
  CreatedAfter : Time
  CreatedBefore : Time
  deriving DecidableEq, Repr

/-- The argument struct of `FeedUrl`, as built in `FetchTicketListings`. -/
structure FeedUrlInput where
  APIKey : String
  Country : Country
  Regions : List Region
  BeforeTime : Time
  deriving DecidableEq, Repr

/-- The struct `Client`: the API key (the HTTP client is part of `Env`). -/
structure Client where
  apiKey : String
  deriving DecidableEq, Repr

/-! ## The environment -/

/-- What the code reads of a `req.Response`. -/
structure Response where
  /-- The method `IsSuccessState`. -/
  IsSuccessState : Bool
  /-- The method `GetStatus`. -/
  Status : String
  /-- The text `html2text.HTML2Text(response.String())`. -/
  Text : String
  /-- The result of `io.ReadAll(response.Body)`. -/
  Body : Except GoError String

/-- The result of `c.client.R().SetContext(ctx).Get(feedUrl)`: a transport error (network
failure, timeout, cancellation) or a response. -/
inductive GetResult where
  | failed (err : GoError)
  | response (r : Response)

/-- Everything `FetchTicketListings` calls that lives outside the embedded files. -/
structure Env where
  /-- The value of `time.Now()`. -/
  Now : Time
  /-- The method `Countries.Contains`. -/
  CountriesContains : Country → Bool
  /-- The function `FeedUrl`. -/
  FeedUrl : FeedUrlInput → Except GoError String
  /-- The transport: the answer to a GET of the URL, given the URLs requested so far. -/
  Get : List String → String → GetResult
  /-- The call `json.Unmarshal(data, &response)`: an error, or the decoded `ResponseData`,
  one entry per element with `none` for a null `catalogBlockSummary`. -/
  jsonUnmarshal : String → Except GoError (List (Option TicketListing))
  /-- The largest capacity for which `make(TicketListings, 0, cap)` succeeds: the allocation
  limit of the platform over the size of a listing.  Any larger capacity panics. -/
  MakeLimit : Int

/-! ## `listing.go`: the feed decoder -/

/-- The loop of `UnmarshalTwicketsFeedJson` over `response.ResponseData`. -/
def UnmarshalTwicketsFeedJson.collect :
    List (Option TicketListing) → List TicketListing → List TicketListing
  | [], listings => listings
  | none :: rest, listings => collect rest listings
  | some l :: rest, listings => collect rest (listings ++ [l])

/-- The function `UnmarshalTwicketsFeedJson`. -/
def UnmarshalTwicketsFeedJson (w : Env) (data : String) :
    Option (List TicketListing) × Option GoError :=
  match w.jsonUnmarshal data with
  | .error err => (none, some (.wrap "failed to unmarshal response: " err))
  | .ok responseData => (some (UnmarshalTwicketsFeedJson.collect responseData []), none)

/-! ## `client.go` -/

/-- The method `applyDefaults`. -/
def applyDefaults (w : Env) (f : FetchTicketListingsInput) : FetchTicketListingsInput :=
  let f := if f.MaxNumber = 0 then { f with MaxNumber := 10 } else f
  if Time.IsZero f.CreatedBefore then { f with CreatedBefore := w.Now } else f

/-- The method `Validate`; `none` is the nil error. -/
def Validate (w : Env) (f : FetchTicketListingsInput) : Option GoError :=
  if f.Country.Value = "" then
    some (.new "country must be set")
  else if !w.CountriesContains f.Country then
    some (.new ("country '" ++ f.Country.Value ++ "' is not valid"))
  else if Time.Before f.CreatedBefore f.CreatedAfter then
    some (.new "created after time must be after the created before time")
  else if f.MaxNumber < 0 && Time.IsZero f.CreatedAfter then
    some (.new "if not limiting number of ticket listings, created after must be set")
  else
    none

/-- The method `FetchTicketListingsByFeedUrl`, with the call log: the request is appended to
the log, and the pair of results is returned with the new log. -/
def FetchTicketListingsByFeedUrl (w : Env) (log : List String) (feedUrl : String) :
    (Option TicketListings × Option GoError) × List String :=
  match w.Get log feedUrl with
  | .failed _ => ((none, none), log ++ [feedUrl])
  | .response response =>
    if !response.IsSuccessState then
      ((none, some (.new ("failed to fetch tickets: " ++ response.Status ++
        "\n\nResponse:\n" ++ response.Text))), log ++ [feedUrl])
    else
      match response.Body with
      | .error err => ((none, some (.wrap "failed ready response body: " err)), log ++ [feedUrl])
      | .ok bodyBytes => (UnmarshalTwicketsFeedJson w bodyBytes, log ++ [feedUrl])

/-- The loop of `processFeedListings`: the listings still to scan and `processedListings`. -/
def processFeedListings.scan (maxNumber : Int) (createdAfter : Time) :
    List TicketListing → List TicketListing → List TicketListing × Bool
  | [], processedListings => (processedListings, false)
  | listing :: rest, processedListings =>
    if !Time.After listing.CreatedAt.Time createdAfter then
      (processedListings, true)
    else if ((processedListings ++ [listing]).length : Int) = maxNumber then
      (processedListings ++ [listing], true)
    else
      scan maxNumber createdAfter rest (processedListings ++ [listing])

/-- The function `processFeedListings`. -/
def processFeedListings (listings : TicketListings) (maxNumber : Int) (createdAfter : Time) :
    List TicketListing × Bool :=
  processFeedListings.scan maxNumber createdAfter listings []

/-- The length of a slice; the nil slice has length 0. -/
def sliceLen {α : Type} : Option (List α) → Nat
  | none => 0
  | some xs => xs.length

/-- The elements of a slice; the nil slice has none. -/
def sliceItems {α : Type} : Option (List α) → List α
  | none => []
  | some xs => xs

/-- How a call of `FetchTicketListings` ends: it returns its two results, it panics, or it
is still iterating when the fuel is used up. -/
inductive Outcome where
  | returned (listings : Option TicketListings) (err : Option GoError)
  | panicked (msg : String)
  | running
  deriving DecidableEq, Repr

/-- The `for` loop of `FetchTicketListings`, one iteration per unit of fuel.  The state is the
call log, `listings`, `earliestTicketTime` and `numListingsRemaining`. -/
def FetchTicketListings.loop (w : Env) (c : Client) (input : FetchTicketListingsInput) :
    Nat → List String → TicketListings → Time → Int → Outcome × List String
  | 0, log, _, _, _ => (.running, log)
  | fuel + 1, log, listings, earliestTicketTime, numListingsRemaining =>
    match w.FeedUrl
        { APIKey := c.apiKey, Country := input.Country, Regions := input.Regions,
          BeforeTime := earliestTicketTime } with
    | .error err => (.returned none (some (.wrap "failed to get feed url: " err)), log)
    | .ok feedUrl =>
      match FetchTicketListingsByFeedUrl w log feedUrl with
      | ((_, some err), log) => (.returned none (some err), log)
      | ((newListings, none), log) =>
        if sliceLen newListings = 0 then
          (.returned none (some (.new "no listings returned")), log)
        else
          match processFeedListings (sliceItems newListings) numListingsRemaining
              input.CreatedAfter with
          | (processedListings, shouldBreak) =>
            if shouldBreak then
              (.returned (some (listings ++ processedListings)) none, log)
            else
              match (listings ++ processedListings).getLast? with
              | none => (.panicked "index out of range [-1]", log)
              | some last =>
                loop w c input fuel log (listings ++ processedListings) last.CreatedAt.Time
                  (input.MaxNumber - ((listings ++ processedListings).length : Int))

/-- The method `FetchTicketListings`: the outcome and the log of the URLs requested.
`make(TicketListings, 0, input.MaxNumber)` panics when the capacity is negative or above the
allocation limit. -/
def FetchTicketListings (w : Env) (c : Client) (input : FetchTicketListingsInput)
    (fuel : Nat) : Outcome × List String :=
  match Validate w (applyDefaults w input) with
  | some err => (.returned none (some (.wrap "invalid input: " err)), [])
  | none =>
    if (applyDefaults w input).MaxNumber < 0 ∨
        w.MakeLimit < (applyDefaults w input).MaxNumber then
      (.panicked "makeslice: cap out of range", [])
    else
      FetchTicketListings.loop w c (applyDefaults w input) fuel [] []
        (applyDefaults w input).CreatedBefore (applyDefaults w input).MaxNumber

/-! ## `listing.go`: derived values and lookup -/

/-- Modelled from the spec: the method `Price.Add` is declared outside the embedded files; the
spec describes addition of fixed-point amounts without loss of minor units. -/
def Price.Add (p q : Price) : Price := ⟨p.Amount + q.Amount⟩

/-- Modelled from the spec: the method `Price.Divide` is declared outside the embedded files;
the spec describes integer division of the amount by the ticket count, truncating, and a
fatal error (`none`) for a count that is not positive. -/
def Price.Divide (p : Price) (n : Int) : Option Price :=
  if n ≤ 0 then none else some ⟨Int.tdiv p.Amount n⟩

/-- The method `TwicketsFeePerTicket`. -/
def TicketListing.TwicketsFeePerTicket (l : TicketListing) : Option Price :=
  l.TwicketsFee.Divide l.NumTickets

/-- The method `TicketPriceExclFee`. -/
def TicketListing.TicketPriceExclFee (l : TicketListing) : Option Price :=
  match l.TotalPriceExclFee.Divide l.NumTickets with
  | none => none
  | some perTicket =>
    match l.TwicketsFeePerTicket with
    | none => none
    | some fee => some (perTicket.Add fee)

/-- The method `TotalPriceInclFee`. -/
def TicketListing.TotalPriceInclFee (l : TicketListing) : Price :=
  l.TotalPriceExclFee.Add l.TwicketsFee

/-- The method `TicketPriceInclFee`. -/
def TicketListing.TicketPriceInclFee (l : TicketListing) : Option Price :=
  l.TotalPriceInclFee.Divide l.NumTickets

/-- The method `OriginalTicketPrice`. -/
def TicketListing.OriginalTicketPrice (l : TicketListing) : Option Price :=
  l.OriginalTotalPrice.Divide l.NumTickets

/-- The method `GetById`; `none` is the nil pointer, `some l` a pointer to a copy of `l`. -/
def TicketListings.GetById : TicketListings → String → Option TicketListing
  | [], _ => none
  | listing :: rest, id => if listing.Id = id then some listing else GetById rest id

/-! ## `filter/filter.go` -/

/-- The function type `TicketListingPredicate`. -/
abbrev TicketListingPredicate := TicketListing → Bool

/-- The function `TicketListingMatchesAllPredicates`. -/
def TicketListingMatchesAllPredicates (listing : TicketListing) :
    List TicketListingPredicate → Bool
  | [] => true
  | predicate :: rest =>
    if !predicate listing then false else TicketListingMatchesAllPredicates listing rest

/-- The function `TicketListingMatchesAnyPredicate`. -/
def TicketListingMatchesAnyPredicate (listing : TicketListing) :
    List TicketListingPredicate → Bool
  | [] => false
  | predicate :: rest =>
    if predicate listing then true else TicketListingMatchesAnyPredicate listing rest

/-- The loop of `FilterTicketListings`: the listings still to visit and `result`. -/
def FilterTicketListings.collect (predicates : List TicketListingPredicate) :
    List TicketListing → List TicketListing → List TicketListing
  | [], result => result
  | listing :: rest, result =>
    if TicketListingMatchesAllPredicates listing predicates then
      collect predicates rest (result ++ [listing])
    else
      collect predicates rest result

/-- The function `FilterTicketListings`. -/
def FilterTicketListings (listings : List TicketListing)
    (predicates : List TicketListingPredicate) : List TicketListing :=
  if predicates.length = 0 then listings
  else FilterTicketListings.collect predicates listings []

/-! ## `flaresolverr.go`: URL validation -/

/-- What `ValidateURL` reads of a parsed `url.URL`. -/
structure URL where
  Scheme : String
  Host : String
  deriving DecidableEq, Repr

/-- The library functions `ValidateURL` calls: `url.Parse` and `strings.ToLower`. -/
structure UrlLib where
  /-- The function `url.Parse`. -/
  Parse : String → Except GoError URL
  /-- The function `strings.ToLower`. -/
  ToLower : String → String

/-- The function `ValidateURL`; `none` is the nil error. -/
def ValidateURL (lib : UrlLib) (urlString : String) : Option GoError :=
  if urlString = "" then
    some (.new "url is not set ")
  else
    match lib.Parse urlString with
    | .error err => some (.wrap "url format invalid: " err)
    | .ok parsedURL =>
      if parsedURL.Host = "" then
        some (.new "url hostname missing ")
      else if lib.ToLower parsedURL.Scheme ≠ "http" ∧ lib.ToLower parsedURL.Scheme = "https" then
        some (.new ("url scheme unsupported: " ++ parsedURL.Scheme))
      else
        none

/-! ## The page scan, as the specification words it -/

/-- The reference definition of the page scan: with `W` the longest prefix of the page whose
listings were all created strictly after `t`, the first `n` listings of `W` and a stop when
`n > 0` and `W` has at least `n` listings, and otherwise `W`, with a stop exactly when `W` is
shorter than the page. -/
def processFeedListingsRef (L : List TicketListing) (n : Int) (t : Time) :
    List TicketListing × Bool :=
  if 0 < n ∧ n ≤ ((L.takeWhile (fun l => decide (t < l.CreatedAt.Time))).length : Int) then
    ((L.takeWhile (fun l => decide (t < l.CreatedAt.Time))).take n.toNat, true)
  else
    (L.takeWhile (fun l => decide (t < l.CreatedAt.Time)),
      decide ((L.takeWhile (fun l => decide (t < l.CreatedAt.Time))).length < L.length))

/-! ## Predicates on listings and pages -/

/-- The test of the page scan: the listing was created strictly after `createdAfter`. -/
def createdAfterP (createdAfter : Time) : TicketListing → Bool :=
  fun l => Time.After l.CreatedAt.Time createdAfter

/-- The listing is a non-null entry of the page the transport serves for the URL after the
requests of `pre`: the response is a success and its body decodes to entries of which the
listing is a non-null payload. -/
def ActiveEntryAt (w : Env) (pre : List String) (url : String) (l : TicketListing) : Prop :=
  ∃ (r : Response) (body : String) (entries : List (Option TicketListing)),
    w.Get pre url = .response r ∧ r.IsSuccessState = true ∧ r.Body = .ok body ∧
    w.jsonUnmarshal body = .ok entries ∧ some l ∈ entries

/-- The listing is a non-null entry of a page fetched in the run with the call log `log`: the
log holds a request, of a URL after the requests `pre` before it, whose page has the listing
as a non-null entry. -/
def FetchedActive (w : Env) (log : List String) (l : TicketListing) : Prop :=
  ∃ (pre : List String) (url : String),
    (pre ++ [url]) <+: log ∧ ActiveEntryAt w pre url l

/-- The page the transport serves for the URL after the requests of the log has only null
(delisted) entries: the response is a success and its body decodes to entries that are all
null. -/
def AllNullPage (w : Env) (log : List String) (url : String) : Prop :=
  ∃ (r : Response) (body : String) (entries : List (Option TicketListing)),
    w.Get log url = .response r ∧ r.IsSuccessState = true ∧ r.Body = .ok body ∧
    w.jsonUnmarshal body = .ok entries ∧ ∀ e ∈ entries, e = none

/-! ## The feed model

The upstream feed as a list of listings in descending creation time, served in pages of at
most `P` listings created strictly before the cursor. -/

/-- The page of the feed `F` at the cursor: its first `P` listings created strictly before
the cursor. -/
def feedPage (F : List TicketListing) (P : Nat) (cursor : Time) : List TicketListing :=
  (F.filter (fun l => decide (l.CreatedAt.Time < cursor))).take P

/-- The feed `F` is in strictly descending creation time. -/
def Descending (F : List TicketListing) : Prop :=
  F.Pairwise (fun a b => b.CreatedAt.Time < a.CreatedAt.Time)

/-- The environment serves the feed `F` in pages of `P` to the client and input: for every
cursor, `FeedUrl` yields a URL, and whatever was requested before, the transport answers that
URL with a success response whose body decodes to entries whose non-null payloads are the
page of `F` at that cursor. -/
def ServesFeed (w : Env) (c : Client) (input : FetchTicketListingsInput)
    (F : List TicketListing) (P : Nat) : Prop :=
  ∀ cursor : Time, ∃ url : String,
    w.FeedUrl { APIKey := c.apiKey, Country := input.Country, Regions := input.Regions,
                BeforeTime := cursor } = .ok url ∧
    ∀ log : List String, ∃ (r : Response) (body : String)
        (entries : List (Option TicketListing)),
      w.Get log url = .response r ∧ r.IsSuccessState = true ∧ r.Body = .ok body ∧
      w.jsonUnmarshal body = .ok entries ∧
      entries.filterMap id = feedPage F P cursor

/-! ## Concrete environments -/

/-- A listing as the mock responses of `client_test.go` build it: an id, a creation time and an
event name, every other field at its zero value. -/
def mockListing (id : String) (created : Time) (eventName : String) : TicketListing :=
  { Id := id, CreatedAt := ⟨created⟩, ExpiresAt := ⟨0⟩, NumTickets := 0,
    TotalPriceExclFee := ⟨0⟩, TwicketsFee := ⟨0⟩, OriginalTotalPrice := ⟨0⟩,
    SellerWillConsiderOffers := false, TicketType := "", SeatAssigned := false,
    Section := "", Row := "", Event := ⟨id, eventName⟩, Tour := ⟨"", ""⟩ }

/-- The mock feed: `n` listings one minute apart, the newest one minute before `start`
(times in minutes). -/
def mockFeed (start : Time) (n : Nat) : List TicketListing :=
  (List.range n).map fun i => mockListing (toString i) (start - (i + 1 : Nat)) "event"

/-- A URL that carries the cursor: as many marks as the cursor's value (none when it is not
positive). -/
def mockUrl (cursor : Time) : String := String.mk (List.replicate cursor.toNat 'x')

/-- The country of the tests. -/
def CountryUnitedKingdom : Country := ⟨"GB"⟩

/-- A mock environment serving the feed `F` in pages of `P`: the URL carries the cursor, the
transport echoes the URL as the body, and decoding yields the page at that cursor.  Slices of
up to `2^32` listings can be allocated. -/
def mockEnv (now : Time) (F : List TicketListing) (P : Nat) : Env where
  Now := now
  CountriesContains := fun c => decide (c = CountryUnitedKingdom)
  FeedUrl := fun i => .ok (mockUrl i.BeforeTime)
  Get := fun _ url => .response ⟨true, "200 OK", "", .ok url⟩
  jsonUnmarshal := fun body => .ok ((feedPage F P (body.length : Nat)).map some)
  MakeLimit := 4294967296

/-- The client of the tests. -/
def mockClient : Client := ⟨"test"⟩


/-- The input of `TestFetchListingsPaginatedMaxNumber`: 23 listings before time 100. -/
def inputMaxNumber : FetchTicketListingsInput :=
  { Country := CountryUnitedKingdom, Regions := [], MaxNumber := 23, CreatedAfter := 0,
    CreatedBefore := 100 }

/-- The input of `TestFetchListingsPaginatedCreatedAfter`: up to 100 listings created
before time 100 and after time 84 (16 minutes back). -/
def inputCreatedAfter : FetchTicketListingsInput :=
  { Country := CountryUnitedKingdom, Regions := [], MaxNumber := 100, CreatedAfter := 84,
    CreatedBefore := 100 }

/-- An input whose window reaches below the whole mock feed of 20 listings. -/
def inputWideWindow : FetchTicketListingsInput :=
  { Country := CountryUnitedKingdom, Regions := [], MaxNumber := 100, CreatedAfter := 50,
    CreatedBefore := 100 }

/-- The input of `TestFetchListingsCreatedAfterLatestListingReturnsNothing`: `CreatedAfter`
is the creation time of the newest listing of the mock feed. -/
def inputBoundary : FetchTicketListingsInput :=
  { Country := CountryUnitedKingdom, Regions := [], MaxNumber := 100, CreatedAfter := 99,
    CreatedBefore := 100 }

/-- The input of `inputCreatedAfter` with the largest count an `int` holds
(`math.MaxInt64`). -/
def inputMaxInt : FetchTicketListingsInput :=
  { Country := CountryUnitedKingdom, Regions := [], MaxNumber := 9223372036854775807,
    CreatedAfter := 84, CreatedBefore := 100 }

/-- An input without a count limit over the window of `inputCreatedAfter`. -/
def inputNoLimitWindow : FetchTicketListingsInput :=
  { Country := CountryUnitedKingdom, Regions := [], MaxNumber := -1, CreatedAfter := 84,
    CreatedBefore := 100 }

/-- An input with the default count and no country. -/
def inputNoCountry : FetchTicketListingsInput :=
  { Country := ⟨""⟩, Regions := [], MaxNumber := 0, CreatedAfter := 0, CreatedBefore := 0 }

/-- An input with the default count and no lower time bound. -/
def inputDefault : FetchTicketListingsInput :=
  { Country := CountryUnitedKingdom, Regions := [], MaxNumber := 0, CreatedAfter := 0,
    CreatedBefore := 100 }

/-- An environment whose first page holds two delisted entries and whose later pages hold two
active listings. -/
def delistedFirstEnv : Env where
  Now := 1000
  CountriesContains := fun c => decide (c = CountryUnitedKingdom)
  FeedUrl := fun _ => .ok "feed"
  Get := fun log _ =>
    .response ⟨true, "200 OK", "", .ok (if log = [] then "delisted" else "active")⟩
  jsonUnmarshal := fun body =>
    if body = "delisted" then .ok [none, none]
    else .ok [some (mockListing "a" 99 "event"), some (mockListing "b" 98 "event")]
  MakeLimit := 4294967296

/-- An environment whose transport fails on every request. -/
def failingEnv : Env where
  Now := 1000
  CountriesContains := fun c => decide (c = CountryUnitedKingdom)
  FeedUrl := fun _ => .ok "feed"
  Get := fun _ _ => .failed (.new "connection refused")
  jsonUnmarshal := fun _ => .ok []
  MakeLimit := 4294967296

/-- An environment whose `json.Unmarshal` treats the body `{}` as `encoding/json` does: an
object without the key `responseData` leaves the field `ResponseData` empty and is no error.
Any other body is rejected. -/
def emptyObjectEnv : Env where
  Now := 1000
  CountriesContains := fun c => decide (c = CountryUnitedKingdom)
  FeedUrl := fun _ => .ok "feed"
  Get := fun _ _ => .response ⟨true, "200 OK", "", .ok "{}"⟩
  jsonUnmarshal := fun body =>
    if body = "{}" then .ok [] else .error (.new "unexpected end of JSON input")
  MakeLimit := 4294967296

/-- A listing with the given id, ticket count and amounts (total excluding fee, fee, original
total), created at time 1. -/
def pricedListing (id : String) (numTickets total fee original : Int) : TicketListing :=
  { mockListing id 1 "event" with
    NumTickets := numTickets, TotalPriceExclFee := ⟨total⟩, TwicketsFee := ⟨fee⟩,
    OriginalTotalPrice := ⟨original⟩ }

/-- An environment whose transport returns the same page of three listings for ever. -/
def repeatingEnv : Env where
  Now := 1000
  CountriesContains := fun c => decide (c = CountryUnitedKingdom)
  FeedUrl := fun _ => .ok "feed"
  Get := fun _ _ => .response ⟨true, "200 OK", "", .ok "page"⟩
  jsonUnmarshal := fun _ => .ok [some (mockListing "a" 99 "event"), none,
    some (mockListing "b" 98 "event"), some (mockListing "c" 97 "event")]
  MakeLimit := 4294967296

/-- An input with a count bound of 5 and no lower time bound. -/
def inputFive : FetchTicketListingsInput :=
  { Country := CountryUnitedKingdom, Regions := [], MaxNumber := 5, CreatedAfter := 0,
    CreatedBefore := 100 }

/-- A predicate of the sample filters: the listing has exactly two tickets. -/
def hasTwoTickets : TicketListingPredicate := fun l => decide (l.NumTickets = 2)

/-- A predicate of the sample filters: the total excluding fee is below 1000. -/
def isCheap : TicketListingPredicate := fun l => decide (l.TotalPriceExclFee.Amount < 1000)

/-- Sample listings for the filters and the lookup; two of them share the id "a". -/
def sampleListings : List TicketListing :=
  [pricedListing "a" 2 500 50 800, pricedListing "b" 2 1200 100 1200,
    pricedListing "a" 1 300 30 300, pricedListing "c" 2 900 90 1000]

/-- The ASCII lower-casing of a string, character by character. -/
def toLowerAscii (s : String) : String := String.mk (s.data.map Char.toLower)

/-- A URL library that parses the three sample URLs as `url.Parse` does, into their scheme and
host, and rejects any other string. -/
def sampleUrlLib : UrlLib where
  Parse := fun s =>
    if s = "https://solver.example:8191" then .ok ⟨"https", "solver.example:8191"⟩
    else if s = "http://0.0.0.0:8191" then .ok ⟨"http", "0.0.0.0:8191"⟩
    else if s = "ftp://host" then .ok ⟨"ftp", "host"⟩
    else .error (.new "invalid URL")
  ToLower := toLowerAscii

/-- The input `inputDefault` with the count written out as 10. -/
def inputTen : FetchTicketListingsInput :=
  { inputDefault with MaxNumber := 10 }

/-! ## Defaults -/

/-- Defaulting leaves `CreatedAfter` as it is. -/
theorem applyDefaults_CreatedAfter (w : Env) (f : FetchTicketListingsInput) :
    (applyDefaults w f).CreatedAfter = f.CreatedAfter := by
  simp only [applyDefaults]; split_ifs <;> rfl

/-- Defaulting leaves `Country` as it is. -/
theorem applyDefaults_Country (w : Env) (f : FetchTicketListingsInput) :
    (applyDefaults w f).Country = f.Country := by
  simp only [applyDefaults]; split_ifs <;> rfl

/-- Defaulting leaves `Regions` as it is. -/
theorem applyDefaults_Regions (w : Env) (f : FetchTicketListingsInput) :
    (applyDefaults w f).Regions = f.Regions := by
  simp only [applyDefaults]; split_ifs <;> rfl

/-- Defaulting replaces a `MaxNumber` of 0 by 10. -/
theorem applyDefaults_MaxNumber (w : Env) (f : FetchTicketListingsInput) :
    (applyDefaults w f).MaxNumber = if f.MaxNumber = 0 then 10 else f.MaxNumber := by
  simp only [applyDefaults]; split_ifs <;> rfl

/-- Defaulting replaces a zero `CreatedBefore` by the current time. -/
theorem applyDefaults_CreatedBefore (w : Env) (f : FetchTicketListingsInput) :
    (applyDefaults w f).CreatedBefore =
      if Time.IsZero f.CreatedBefore then w.Now else f.CreatedBefore := by
  simp only [applyDefaults]; split_ifs <;> rfl

/-! ## The three ways `FetchTicketListings` starts -/

/-- An input whose defaulted form fails `Validate` returns the wrapped error at once. -/
theorem fetch_of_invalid (w : Env) (c : Client) (input : FetchTicketListingsInput)
    (fuel : Nat) (e : GoError) (hv : Validate w (applyDefaults w input) = some e) :
    FetchTicketListings w c input fuel =
      (.returned none (some (.wrap "invalid input: " e)), []) := by
  unfold FetchTicketListings
  rw [hv]

/-- A valid input whose count is negative or above the allocation limit panics when the
accumulator is allocated. -/
theorem fetch_of_alloc_panic (w : Env) (c : Client) (input : FetchTicketListingsInput)
    (fuel : Nat) (hv : Validate w (applyDefaults w input) = none)
    (hcap : (applyDefaults w input).MaxNumber < 0 ∨
      w.MakeLimit < (applyDefaults w input).MaxNumber) :
    FetchTicketListings w c input fuel = (.panicked "makeslice: cap out of range", []) := by
  unfold FetchTicketListings
  rw [hv]
  simp only []
  rw [if_pos hcap]

/-- A valid input whose count can be allocated enters the loop with an empty accumulator, the
cursor `CreatedBefore` and the budget `MaxNumber`. -/
theorem fetch_of_alloc_ok (w : Env) (c : Client) (input : FetchTicketListingsInput)
    (fuel : Nat) (hv : Validate w (applyDefaults w input) = none)
    (hcap : ¬ ((applyDefaults w input).MaxNumber < 0 ∨
      w.MakeLimit < (applyDefaults w input).MaxNumber)) :
    FetchTicketListings w c input fuel =
      FetchTicketListings.loop w c (applyDefaults w input) fuel [] []
        (applyDefaults w input).CreatedBefore (applyDefaults w input).MaxNumber := by
  unfold FetchTicketListings
  rw [hv]
  simp only []
  rw [if_neg hcap]

/-! ## The feed decoder and the page scan, characterised -/

/-- The decoding loop appends the non-null payloads, in order. -/
theorem collect_eq (entries : List (Option TicketListing)) (listings : List TicketListing) :
    UnmarshalTwicketsFeedJson.collect entries listings = listings ++ entries.filterMap id := by
  induction entries generalizing listings with
  | nil => simp [UnmarshalTwicketsFeedJson.collect]
  | cons e rest ih =>
    cases e with
    | none => simp [UnmarshalTwicketsFeedJson.collect, ih]
    | some l => simp [UnmarshalTwicketsFeedJson.collect, ih]

/-- The page scan from any intermediate state: with `W` the longest prefix of the remaining
page created after the bound, the scan stops on the count when the budget lies between the
size of the batch (exclusive) and that size plus the length of `W`. -/
theorem scan_eq (n : Int) (t : Time) (L acc : List TicketListing) :
    processFeedListings.scan n t L acc =
      if (acc.length : Int) < n ∧ n ≤ acc.length + (L.takeWhile (createdAfterP t)).length then
        (acc ++ (L.takeWhile (createdAfterP t)).take (n - acc.length).toNat, true)
      else
        (acc ++ L.takeWhile (createdAfterP t),
          decide ((L.takeWhile (createdAfterP t)).length < L.length)) := by
  induction L generalizing acc with
  | nil =>
    rw [processFeedListings.scan]
    split_ifs with h
    · simp only [List.takeWhile_nil, List.length_nil, Nat.cast_zero] at h; omega
    · simp
  | cons x rest ih =>
    rw [processFeedListings.scan]
    by_cases hx : createdAfterP t x = true
    · have hx' : Time.After x.CreatedAt.Time t = true := hx
      rw [List.takeWhile_cons_of_pos hx]
      simp only [hx', Bool.not_true, Bool.false_eq_true, if_false, List.length_append,
        List.length_singleton, List.length_cons, List.length_nil, Nat.cast_add, Nat.cast_one,
        Nat.cast_zero, zero_add]
      by_cases hn : (acc.length : Int) + 1 = n
      · rw [if_pos hn, if_pos (by constructor <;> omega)]
        have h1 : (n - (acc.length : Int)).toNat = 1 := by omega
        rw [h1]; simp
      · rw [if_neg hn, ih]
        simp only [List.length_append, List.length_singleton, Nat.cast_add, Nat.cast_one]
        by_cases hc : ((acc.length : Int) + 1 < n ∧
            n ≤ (acc.length : Int) + 1 + (rest.takeWhile (createdAfterP t)).length)
        · rw [if_pos hc, if_pos (by constructor <;> omega)]
          have hk : (n - (acc.length : Int)).toNat = (n - ((acc.length : Int) + 1)).toNat + 1 := by
            omega
          rw [hk]; simp
        · rw [if_neg hc, if_neg (by intro h; apply hc; constructor <;> omega)]
          simp
    · have hx' : Time.After x.CreatedAt.Time t = false := by
        simpa [createdAfterP] using hx
      rw [List.takeWhile_cons_of_neg hx]
      simp only [hx', Bool.not_false, if_true, List.length_nil, List.length_cons, Nat.cast_zero]
      rw [if_neg (by omega)]
      simp

/-- The page scan for a positive budget `k`: with `W` the longest prefix of the page created
after the bound, the result is the first `k` of `W` and a stop when `W` has at least `k`
listings, and otherwise `W`, with a stop exactly when `W` is not the whole page. -/
theorem processFeedListings_pos (L : List TicketListing) (k : Nat) (hk : 0 < k) (t : Time) :
    processFeedListings L (k : Int) t =
      if k ≤ (L.takeWhile (createdAfterP t)).length then
        ((L.takeWhile (createdAfterP t)).take k, true)
      else
        (L.takeWhile (createdAfterP t),
          decide ((L.takeWhile (createdAfterP t)).length < L.length)) := by
  unfold processFeedListings
  rw [scan_eq]
  simp only [List.length_nil, Nat.cast_zero, zero_add, List.nil_append, sub_zero,
    Int.toNat_ofNat]
  by_cases h : k ≤ (L.takeWhile (createdAfterP t)).length
  · rw [if_pos h, if_pos (by constructor <;> omega)]
  · rw [if_neg h, if_neg (by omega)]

/-- Every listing the page scan keeps is a listing of the page created after the bound. -/
theorem processFeedListings_mem (L : List TicketListing) (n : Int) (t : Time)
    (l : TicketListing) (h : l ∈ (processFeedListings L n t).1) :
    l ∈ L ∧ t < l.CreatedAt.Time := by
  unfold processFeedListings at h
  rw [scan_eq] at h
  have hW : ∀ x ∈ L.takeWhile (createdAfterP t), x ∈ L ∧ t < x.CreatedAt.Time := by
    intro x hx
    refine ⟨(List.takeWhile_sublist _).subset hx, ?_⟩
    have := List.mem_takeWhile_imp hx
    simpa [createdAfterP, Time.After] using this
  split at h
  · simp only [List.nil_append] at h
    exact hW l (List.mem_of_mem_take h)
  · simp only [List.nil_append] at h
    exact hW l h


/-- The page scan for a budget that is not positive: the count-based stop never fires; the
result is the longest prefix `W` of the page created after the bound, with a stop exactly when
`W` is not the whole page. -/
theorem processFeedListings_nonpos (L : List TicketListing) (n : Int) (hn : n ≤ 0) (t : Time) :
    processFeedListings L n t =
      (L.takeWhile (createdAfterP t),
        decide ((L.takeWhile (createdAfterP t)).length < L.length)) := by
  unfold processFeedListings
  rw [scan_eq, if_neg (by simp only [List.length_nil, Nat.cast_zero]; omega)]
  simp

/-- The page scan of a page whose first listing was not created after the bound keeps
nothing and asks to stop. -/
theorem processFeedListings_first_not_after (first : TicketListing) (rest : List TicketListing)
    (n : Int) (t : Time) (h : first.CreatedAt.Time ≤ t) :
    processFeedListings (first :: rest) n t = ([], true) := by
  have : Time.After first.CreatedAt.Time t = false := by
    simp only [Time.After, decide_eq_false_iff_not, not_lt]; exact h
  simp [processFeedListings, processFeedListings.scan, this]


/-! ## One page fetch -/

/-- Every page fetch appends its URL to the call log. -/
theorem fetch_log (w : Env) (log : List String) (url : String) :
    (FetchTicketListingsByFeedUrl w log url).2 = log ++ [url] := by
  unfold FetchTicketListingsByFeedUrl
  split
  · rfl
  · split
    · rfl
    · split <;> rfl

/-- A success response whose body decodes yields the non-null payloads, in order. -/
theorem fetch_ok (w : Env) (log : List String) (url : String) (r : Response) (body : String)
    (entries : List (Option TicketListing))
    (hget : w.Get log url = .response r) (hs : r.IsSuccessState = true)
    (hbody : r.Body = .ok body) (hjson : w.jsonUnmarshal body = .ok entries) :
    FetchTicketListingsByFeedUrl w log url =
      ((some (entries.filterMap id), none), log ++ [url]) := by
  simp [FetchTicketListingsByFeedUrl, hget, hs, hbody, UnmarshalTwicketsFeedJson, hjson,
    collect_eq]

/-- A transport error yields the nil slice and the nil error. -/
theorem fetch_failed (w : Env) (log : List String) (url : String) (e : GoError)
    (hget : w.Get log url = .failed e) :
    FetchTicketListingsByFeedUrl w log url = ((none, none), log ++ [url]) := by
  simp [FetchTicketListingsByFeedUrl, hget]

/-- The listings of a page fetched without error are non-null entries of the page the
transport served, with a success status, for that request. -/
theorem fetch_active (w : Env) (log : List String) (url : String)
    (newListings : Option TicketListings) (log' : List String)
    (h : FetchTicketListingsByFeedUrl w log url = ((newListings, none), log'))
    (l : TicketListing) (hl : l ∈ sliceItems newListings) : ActiveEntryAt w log url l := by
  unfold FetchTicketListingsByFeedUrl at h
  cases hget : w.Get log url with
  | failed e =>
    rw [hget] at h
    simp only [Prod.mk.injEq] at h
    obtain ⟨⟨h1, _⟩, _⟩ := h
    subst h1
    simp [sliceItems] at hl
  | response r =>
    rw [hget] at h
    cases hs : r.IsSuccessState with
    | false => simp [hs] at h
    | true =>
      cases hbody : r.Body with
      | error e => simp [hs, hbody] at h
      | ok body =>
        cases hjson : w.jsonUnmarshal body with
        | error e => simp [hs, hbody, UnmarshalTwicketsFeedJson, hjson] at h
        | ok entries =>
          simp only [hs, hbody, UnmarshalTwicketsFeedJson, hjson, collect_eq, List.nil_append,
            Bool.not_true, Bool.false_eq_true, if_false, Prod.mk.injEq, and_true] at h
          obtain ⟨h1, _⟩ := h
          subst h1
          simp only [sliceItems, List.mem_filterMap, id] at hl
          obtain ⟨a, ha, hal⟩ := hl
          subst hal
          exact ⟨r, body, entries, hget, hs, hbody, hjson, ha⟩

/-! ## One iteration of the pagination loop -/

section Step

variable (w : Env) (c : Client) (input : FetchTicketListingsInput)

/-- An iteration whose feed URL cannot be built returns that error, wrapped. -/
theorem loop_feedUrl_error (fuel : Nat) (log : List String) (acc : TicketListings)
    (cursor : Time) (rem : Int) (e : GoError)
    (hurl : w.FeedUrl ⟨c.apiKey, input.Country, input.Regions, cursor⟩ = .error e) :
    FetchTicketListings.loop w c input (fuel + 1) log acc cursor rem =
      (.returned none (some (.wrap "failed to get feed url: " e)), log) := by
  simp [FetchTicketListings.loop, hurl]

/-- An iteration whose page fetch returns an error returns that error. -/
theorem loop_fetch_error (fuel : Nat) (log : List String) (acc : TicketListings)
    (cursor : Time) (rem : Int) (url : String) (nl : Option TicketListings) (e : GoError)
    (log' : List String)
    (hurl : w.FeedUrl ⟨c.apiKey, input.Country, input.Regions, cursor⟩ = .ok url)
    (hfetch : FetchTicketListingsByFeedUrl w log url = ((nl, some e), log')) :
    FetchTicketListings.loop w c input (fuel + 1) log acc cursor rem =
      (.returned none (some e), log') := by
  simp [FetchTicketListings.loop, hurl, hfetch]

/-- An iteration whose page has no listing returns the error "no listings returned". -/
theorem loop_empty_page (fuel : Nat) (log : List String) (acc : TicketListings)
    (cursor : Time) (rem : Int) (url : String) (nl : Option TicketListings)
    (log' : List String)
    (hurl : w.FeedUrl ⟨c.apiKey, input.Country, input.Regions, cursor⟩ = .ok url)
    (hfetch : FetchTicketListingsByFeedUrl w log url = ((nl, none), log'))
    (hlen : sliceLen nl = 0) :
    FetchTicketListings.loop w c input (fuel + 1) log acc cursor rem =
      (.returned none (some (.new "no listings returned")), log') := by
  simp [FetchTicketListings.loop, hurl, hfetch, hlen]

/-- An iteration whose page scan asks to stop returns the accumulated listings. -/
theorem loop_break (fuel : Nat) (log : List String) (acc : TicketListings)
    (cursor : Time) (rem : Int) (url : String) (nl : Option TicketListings)
    (log' : List String) (processed : List TicketListing)
    (hurl : w.FeedUrl ⟨c.apiKey, input.Country, input.Regions, cursor⟩ = .ok url)
    (hfetch : FetchTicketListingsByFeedUrl w log url = ((nl, none), log'))
    (hlen : sliceLen nl ≠ 0)
    (hproc : processFeedListings (sliceItems nl) rem input.CreatedAfter = (processed, true)) :
    FetchTicketListings.loop w c input (fuel + 1) log acc cursor rem =
      (.returned (some (acc ++ processed)) none, log') := by
  simp [FetchTicketListings.loop, hurl, hfetch, hlen, hproc]

/-- An iteration whose page scan does not ask to stop goes on from the creation time of the
last accumulated listing, with the budget recomputed. -/
theorem loop_continue (fuel : Nat) (log : List String) (acc : TicketListings)
    (cursor : Time) (rem : Int) (url : String) (nl : Option TicketListings)
    (log' : List String) (processed : List TicketListing) (last : TicketListing)
    (hurl : w.FeedUrl ⟨c.apiKey, input.Country, input.Regions, cursor⟩ = .ok url)
    (hfetch : FetchTicketListingsByFeedUrl w log url = ((nl, none), log'))
    (hlen : sliceLen nl ≠ 0)
    (hproc : processFeedListings (sliceItems nl) rem input.CreatedAfter = (processed, false))
    (hlast : (acc ++ processed).getLast? = some last) :
    FetchTicketListings.loop w c input (fuel + 1) log acc cursor rem =
      FetchTicketListings.loop w c input fuel log' (acc ++ processed) last.CreatedAt.Time
        (input.MaxNumber - ((acc ++ processed).length : Int)) := by
  simp only [FetchTicketListings.loop, hurl, hfetch, hlen, hproc, hlast]
  simp

/-- An iteration that reaches the cursor update with nothing accumulated panics. -/
theorem loop_index_panic (fuel : Nat) (log : List String) (acc : TicketListings)
    (cursor : Time) (rem : Int) (url : String) (nl : Option TicketListings)
    (log' : List String) (processed : List TicketListing)
    (hurl : w.FeedUrl ⟨c.apiKey, input.Country, input.Regions, cursor⟩ = .ok url)
    (hfetch : FetchTicketListingsByFeedUrl w log url = ((nl, none), log'))
    (hlen : sliceLen nl ≠ 0)
    (hproc : processFeedListings (sliceItems nl) rem input.CreatedAfter = (processed, false))
    (hlast : (acc ++ processed).getLast? = none) :
    FetchTicketListings.loop w c input (fuel + 1) log acc cursor rem =
      (.panicked "index out of range [-1]", log') := by
  simp only [FetchTicketListings.loop, hurl, hfetch, hlen, hproc, hlast]
  simp

end Step


/-! ## Lists in descending creation time -/

/-- In a descending list `A ++ B`, the listings created strictly before the last listing of
`A` are exactly those of `B`. -/
theorem filter_below_last (A B : List TicketListing) (last : TicketListing)
    (hA : A.getLast? = some last) (hd : Descending (A ++ B)) :
    (A ++ B).filter (fun l => decide (l.CreatedAt.Time < last.CreatedAt.Time)) = B := by
  obtain ⟨ys, rfl⟩ := List.getLast?_eq_some_iff.mp hA
  unfold Descending at hd
  rw [List.pairwise_append] at hd
  obtain ⟨h1, _, h3⟩ := hd
  rw [List.pairwise_append] at h1
  obtain ⟨_, _, h4⟩ := h1
  rw [List.filter_append]
  have hA0 : (ys ++ [last]).filter
      (fun l => decide (l.CreatedAt.Time < last.CreatedAt.Time)) = [] := by
    rw [List.filter_eq_nil_iff]
    intro a ha
    rcases List.mem_append.mp ha with ha | ha
    · have := h4 a ha last (by simp)
      simp only [decide_eq_true_eq]
      exact lt_asymm this
    · have : a = last := by simpa using ha
      subst this
      simp
  have hB : B.filter (fun l => decide (l.CreatedAt.Time < last.CreatedAt.Time)) = B := by
    rw [List.filter_eq_self]
    intro b hb
    have := h3 last (by simp) b hb
    simpa using this
  rw [hA0, hB, List.nil_append]

/-- Advancing the cursor to the creation time of the last listing of a page leaves exactly
the part of the feed after that page. -/
theorem feed_rest_step (F : List TicketListing) (hd : Descending F) (cursor : Time) (P : Nat)
    (last : TicketListing)
    (hlast : ((F.filter (fun l => decide (l.CreatedAt.Time < cursor))).take P).getLast? =
      some last) :
    F.filter (fun l => decide (l.CreatedAt.Time < last.CreatedAt.Time)) =
      (F.filter (fun l => decide (l.CreatedAt.Time < cursor))).drop P := by
  have hmem : last ∈ F.filter (fun l => decide (l.CreatedAt.Time < cursor)) :=
    List.mem_of_mem_take (List.mem_of_getLast?_eq_some hlast)
  have hlt : last.CreatedAt.Time < cursor := by
    simpa using (List.mem_filter.mp hmem).2
  have hd' : Descending (F.filter (fun l => decide (l.CreatedAt.Time < cursor))) :=
    List.Pairwise.filter _ hd
  have h1 : F.filter (fun l => decide (l.CreatedAt.Time < last.CreatedAt.Time)) =
      (F.filter (fun l => decide (l.CreatedAt.Time < cursor))).filter
        (fun l => decide (l.CreatedAt.Time < last.CreatedAt.Time)) := by
    rw [List.filter_filter]
    apply List.filter_congr
    intro a _
    by_cases h : a.CreatedAt.Time < last.CreatedAt.Time
    · have : a.CreatedAt.Time < cursor := lt_trans h hlt
      simp [h, this]
    · simp [h]
  rw [h1]
  conv_lhs => rw [← List.take_append_drop P (F.filter (fun l => decide (l.CreatedAt.Time < cursor)))]
  apply filter_below_last _ _ _ hlast
  rw [List.take_append_drop]
  exact hd'

/-- In a descending list, the listings created after a bound are a prefix: the longest
prefix created after the bound. -/
theorem takeWhile_eq_filter (G : List TicketListing) (hd : Descending G) (t : Time) :
    G.takeWhile (createdAfterP t) = G.filter (createdAfterP t) := by
  induction G with
  | nil => rfl
  | cons x G ih =>
    unfold Descending at hd
    rw [List.pairwise_cons] at hd
    by_cases hx : createdAfterP t x = true
    · rw [List.takeWhile_cons_of_pos hx, List.filter_cons_of_pos hx, ih hd.2]
    · rw [List.takeWhile_cons_of_neg hx, List.filter_cons_of_neg hx]
      symm
      rw [List.filter_eq_nil_iff]
      intro a ha
      have h1 := hd.1 a ha
      simp only [createdAfterP, Time.After, decide_eq_true_eq, not_lt] at hx ⊢
      exact le_trans (le_of_lt h1) hx


/-! ## The loop under the feed model -/

/-- Under the feed model, a page fetch at a cursor yields the page of the feed there. -/
theorem fetch_feedPage (w : Env) (c : Client) (input : FetchTicketListingsInput)
    (F : List TicketListing) (P : Nat) (hfeed : ServesFeed w c input F P)
    (cursor : Time) (log : List String) :
    ∃ url : String,
      w.FeedUrl ⟨c.apiKey, input.Country, input.Regions, cursor⟩ = .ok url ∧
      FetchTicketListingsByFeedUrl w log url =
        ((some (feedPage F P cursor), none), log ++ [url]) := by
  obtain ⟨url, hurl, hget⟩ := hfeed cursor
  obtain ⟨r, body, entries, hg, hs, hb, hj, hpage⟩ := hget log
  refine ⟨url, hurl, ?_⟩
  rw [fetch_ok w log url r body entries hg hs hb hj, hpage]

/-- Under the feed model with a positive count bound `N`, from any loop state with fewer than
`N` listings accumulated: if the rest of the feed below the cursor holds a listing at or
before `CreatedAfter`, or enough listings after it to reach `N`, then with fuel for the rest
of the feed the loop returns the accumulator extended by the listings of the rest created
after `CreatedAfter`, up to `N` in total. -/
theorem loop_feed (w : Env) (c : Client) (input : FetchTicketListingsInput)
    (F : List TicketListing) (P N : Nat) (hfeed : ServesFeed w c input F P)
    (hdesc : Descending F) (hP : 1 ≤ P) (hN : input.MaxNumber = (N : Int)) :
    ∀ (fuel : Nat) (log : List String) (acc : TicketListings) (cursor : Time)
      (rest : List TicketListing),
      rest = F.filter (fun l => decide (l.CreatedAt.Time < cursor)) →
      acc.length < N →
      ((∃ l ∈ rest, l.CreatedAt.Time ≤ input.CreatedAfter) ∨
        N ≤ acc.length + (rest.takeWhile (createdAfterP input.CreatedAfter)).length) →
      rest.length ≤ fuel →
      (FetchTicketListings.loop w c input fuel log acc cursor
          ((N : Int) - (acc.length : Int))).1 =
        .returned (some (acc ++
          (rest.takeWhile (createdAfterP input.CreatedAfter)).take (N - acc.length))) none := by
  intro fuel
  induction fuel with
  | zero =>
    intro log acc cursor rest _ hacc hterm hfuel
    exfalso
    have hnil : rest = [] := List.length_eq_zero.mp (Nat.le_zero.mp hfuel)
    subst hnil
    rcases hterm with ⟨l, hl, _⟩ | h
    · simp at hl
    · simp at h; omega
  | succ fuel ih =>
    intro log acc cursor rest hrest hacc hterm hfuel
    obtain ⟨url, hurl, hfetch⟩ := fetch_feedPage w c input F P hfeed cursor log
    have hpage : feedPage F P cursor = rest.take P := by rw [hrest]; rfl
    rw [hpage] at hfetch
    have hne : rest ≠ [] := by
      rintro rfl
      rcases hterm with ⟨l, hl, _⟩ | h
      · simp at hl
      · simp at h; omega
    have hrlen : 0 < rest.length := List.length_pos.mpr hne
    have hplen : (rest.take P).length = min P rest.length := List.length_take _ _
    have hlen : sliceLen (some (rest.take P)) ≠ 0 := by
      simp only [sliceLen, hplen]; omega
    have hk : ((N : Int) - (acc.length : Int)) = ((N - acc.length : Nat) : Int) := by omega
    have hproc := processFeedListings_pos (rest.take P) (N - acc.length) (by omega)
      input.CreatedAfter
    rw [← List.take_takeWhile] at hproc
    have hXlen : ((rest.takeWhile (createdAfterP input.CreatedAfter)).take P).length =
        min P (rest.takeWhile (createdAfterP input.CreatedAfter)).length := List.length_take _ _
    have hXle : (rest.takeWhile (createdAfterP input.CreatedAfter)).length ≤ rest.length :=
      (List.takeWhile_sublist _).length_le
    rw [hk]
    by_cases h1 : N - acc.length ≤
        ((rest.takeWhile (createdAfterP input.CreatedAfter)).take P).length
    · -- the count bound is reached on this page
      rw [if_pos h1] at hproc
      rw [loop_break w c input fuel log acc cursor _ url _ _ _ hurl hfetch hlen hproc]
      have : min (N - acc.length) P = N - acc.length := by omega
      simp only [List.take_take, this]
    · rw [if_neg h1] at hproc
      by_cases h2 : ((rest.takeWhile (createdAfterP input.CreatedAfter)).take P).length <
          (rest.take P).length
      · -- the lower time bound is crossed on this page
        rw [decide_eq_true h2] at hproc
        rw [loop_break w c input fuel log acc cursor _ url _ _ _ hurl hfetch hlen hproc]
        have e1 : (rest.takeWhile (createdAfterP input.CreatedAfter)).take P =
            rest.takeWhile (createdAfterP input.CreatedAfter) :=
          List.take_of_length_le (by omega)
        have e2 : (rest.takeWhile (createdAfterP input.CreatedAfter)).take (N - acc.length) =
            rest.takeWhile (createdAfterP input.CreatedAfter) :=
          List.take_of_length_le (by omega)
        rw [e1, e2]
      · -- the whole page is kept and the loop goes on
        rw [decide_eq_false h2] at hproc
        have hW : (rest.takeWhile (createdAfterP input.CreatedAfter)).take P = rest.take P := by
          rw [List.take_takeWhile]
          apply (List.takeWhile_sublist _).eq_of_length_le
          rw [← List.take_takeWhile]; omega
        rw [hW] at hproc h1
        have hall : ∀ x ∈ rest.take P, createdAfterP input.CreatedAfter x = true := by
          rw [List.take_takeWhile] at hW
          exact List.takeWhile_eq_self_iff.mp hW
        have hpne : rest.take P ≠ [] := by
          intro h; rw [h] at hplen; simp at hplen; omega
        obtain ⟨last, hlast⟩ : ∃ last, (rest.take P).getLast? = some last :=
          ⟨_, List.getLast?_eq_getLast _ hpne⟩
        have hlast' : (acc ++ rest.take P).getLast? = some last := by
          rw [List.getLast?_append_of_ne_nil _ hpne, hlast]
        rw [loop_continue w c input fuel log acc cursor _ url _ _ _ last hurl hfetch hlen hproc
          hlast', hN]
        have hstep : F.filter (fun l => decide (l.CreatedAt.Time < last.CreatedAt.Time)) =
            rest.drop P := by
          rw [hrest]
          exact feed_rest_step F hdesc cursor P last (by rw [← hrest]; exact hlast)
        have hsplit : rest.takeWhile (createdAfterP input.CreatedAfter) =
            rest.take P ++ (rest.drop P).takeWhile (createdAfterP input.CreatedAfter) := by
          conv_lhs => rw [← List.take_append_drop P rest]
          exact List.takeWhile_append_of_pos hall
        have hacc' : (acc ++ rest.take P).length < N := by
          rw [List.length_append]; omega
        have hterm' : (∃ l ∈ rest.drop P, l.CreatedAt.Time ≤ input.CreatedAfter) ∨
            N ≤ (acc ++ rest.take P).length +
              ((rest.drop P).takeWhile (createdAfterP input.CreatedAfter)).length := by
          rcases hterm with ⟨l, hl, hle⟩ | h
          · left
            refine ⟨l, ?_, hle⟩
            rw [← List.take_append_drop P rest] at hl
            rcases List.mem_append.mp hl with hl | hl
            · exfalso
              have := hall l hl
              simp only [createdAfterP, Time.After, decide_eq_true_eq] at this
              exact absurd this (not_lt.mpr hle)
            · exact hl
          · right
            rw [hsplit, List.length_append] at h
            rw [List.length_append]; omega
        have hfuel' : (rest.drop P).length ≤ fuel := by
          rw [List.length_drop]; omega
        have := ih (log ++ [url]) (acc ++ rest.take P) last.CreatedAt.Time (rest.drop P)
          hstep.symm hacc' hterm' hfuel'
        rw [this, hsplit, List.take_append_eq_append_take,
          List.take_of_length_le (by omega : (rest.take P).length ≤ N - acc.length),
          List.length_append, List.append_assoc, Nat.sub_sub]


/-- The feed model does not depend on the defaulted fields of the input. -/
theorem servesFeed_defaults (w : Env) (c : Client) (input : FetchTicketListingsInput)
    (F : List TicketListing) (P : Nat) (h : ServesFeed w c input F P) :
    ServesFeed w c (applyDefaults w input) F P := by
  intro cursor
  rw [applyDefaults_Country, applyDefaults_Regions]
  exact h cursor

/-- Under the feed model, for a valid input with a positive count bound `N` within the
allocation limit: if the feed holds a listing created before `CreatedBefore` and at or before
`CreatedAfter`, or at least `N` listings in the window, then with fuel for the feed
`FetchTicketListings` returns, without error, the first `N` listings of the window. -/
theorem fetch_feed (w : Env) (c : Client) (input : FetchTicketListingsInput)
    (F : List TicketListing) (P N : Nat)
    (hvalid : Validate w (applyDefaults w input) = none)
    (hN : input.MaxNumber = (N : Int)) (hNpos : 0 < N) (hcap : (N : Int) ≤ w.MakeLimit)
    (hdesc : Descending F) (hP : 1 ≤ P) (hfeed : ServesFeed w c input F P)
    (hterm : (∃ l ∈ F, l.CreatedAt.Time < (applyDefaults w input).CreatedBefore ∧
          l.CreatedAt.Time ≤ input.CreatedAfter) ∨
        N ≤ (F.filter (fun l => decide (input.CreatedAfter < l.CreatedAt.Time ∧
          l.CreatedAt.Time < (applyDefaults w input).CreatedBefore))).length)
    (fuel : Nat) (hfuel : F.length ≤ fuel) :
    (FetchTicketListings w c input fuel).1 =
      .returned (some ((F.filter (fun l => decide (input.CreatedAfter < l.CreatedAt.Time ∧
        l.CreatedAt.Time < (applyDefaults w input).CreatedBefore))).take N)) none := by
  have hN' : (applyDefaults w input).MaxNumber = (N : Int) := by
    rw [applyDefaults_MaxNumber, if_neg (by omega), hN]
  have hwin : F.filter (fun l => decide (input.CreatedAfter < l.CreatedAt.Time ∧
        l.CreatedAt.Time < (applyDefaults w input).CreatedBefore)) =
      (F.filter (fun l => decide
        (l.CreatedAt.Time < (applyDefaults w input).CreatedBefore))).takeWhile
        (createdAfterP input.CreatedAfter) := by
    rw [takeWhile_eq_filter _ (List.Pairwise.filter _ hdesc), List.filter_filter]
    apply List.filter_congr
    intro a _
    simp [createdAfterP, Time.After, Bool.decide_and]
  have hterm' : (∃ l ∈ F.filter (fun l => decide
          (l.CreatedAt.Time < (applyDefaults w input).CreatedBefore)),
        l.CreatedAt.Time ≤ (applyDefaults w input).CreatedAfter) ∨
      N ≤ ([] : TicketListings).length +
        ((F.filter (fun l => decide
          (l.CreatedAt.Time < (applyDefaults w input).CreatedBefore))).takeWhile
          (createdAfterP (applyDefaults w input).CreatedAfter)).length := by
    rw [applyDefaults_CreatedAfter]
    rcases hterm with ⟨l, hl, h1, h2⟩ | h
    · left; exact ⟨l, List.mem_filter.mpr ⟨hl, by simpa using h1⟩, h2⟩
    · right; rw [← hwin]; simpa using h
  have hloop := loop_feed w c (applyDefaults w input) F P N
    (servesFeed_defaults w c input F P hfeed) hdesc hP hN' fuel [] []
    (applyDefaults w input).CreatedBefore _ rfl (by simpa using hNpos) hterm'
    (le_trans (List.length_filter_le _ _) hfuel)
  rw [applyDefaults_CreatedAfter] at hloop
  simp only [List.length_nil, Nat.cast_zero, sub_zero, List.nil_append, Nat.sub_zero] at hloop
  rw [fetch_of_alloc_ok w c input fuel hvalid
    (by rw [hN']; exact not_or.mpr ⟨by omega, by omega⟩), hN', hwin]
  exact hloop

/-- The mock environment serves its feed, when every listing is after the zero time. -/
theorem mockEnv_serves (now : Time) (F : List TicketListing) (P : Nat) (c : Client)
    (input : FetchTicketListingsInput) (hpos : ∀ l ∈ F, 0 < l.CreatedAt.Time) :
    ServesFeed (mockEnv now F P) c input F P := by
  intro cursor
  refine ⟨mockUrl cursor, rfl, fun log =>
    ⟨⟨true, "200 OK", "", .ok (mockUrl cursor)⟩, mockUrl cursor,
      (feedPage F P ((mockUrl cursor).length : Nat)).map some, rfl, rfl, rfl, rfl, ?_⟩⟩
  have hlen : (mockUrl cursor).length = cursor.toNat := by
    simp [mockUrl, String.length]
  rw [hlen, List.filterMap_map]
  simp only [Function.comp_def, id, List.filterMap_some]
  by_cases h : 0 ≤ cursor
  · rw [Int.toNat_of_nonneg h]
  · have h0 : cursor.toNat = 0 := Int.toNat_eq_zero.mpr (le_of_lt (not_le.mp h))
    rw [h0]
    unfold feedPage
    congr 1
    apply List.filter_congr
    intro l hl
    have h1 := hpos l hl
    have h2 : ¬ l.CreatedAt.Time < cursor := not_lt.mpr (le_trans (le_of_lt (not_le.mp h)) (le_of_lt h1))
    have h3 : ¬ l.CreatedAt.Time < ((0 : Nat) : Int) := not_lt.mpr (le_of_lt h1)
    rw [decide_eq_false h2, decide_eq_false h3]


/-! ## The call log -/

/-- An iteration either ends before any request (no feed URL), or requests the feed URL of
the cursor and then ends, or goes on with the next iteration. -/
theorem loop_cases (w : Env) (c : Client) (input : FetchTicketListingsInput) (fuel : Nat)
    (log : List String) (acc : TicketListings) (cursor : Time) (rem : Int) :
    (∃ out, FetchTicketListings.loop w c input (fuel + 1) log acc cursor rem = (out, log)) ∨
    (∃ url, w.FeedUrl ⟨c.apiKey, input.Country, input.Regions, cursor⟩ = .ok url ∧
      ((∃ out, FetchTicketListings.loop w c input (fuel + 1) log acc cursor rem =
          (out, log ++ [url])) ∨
        (∃ acc' cursor' rem', FetchTicketListings.loop w c input (fuel + 1) log acc cursor rem =
          FetchTicketListings.loop w c input fuel (log ++ [url]) acc' cursor' rem'))) := by
  cases hurl : w.FeedUrl ⟨c.apiKey, input.Country, input.Regions, cursor⟩ with
  | error e => exact Or.inl ⟨_, loop_feedUrl_error w c input fuel log acc cursor rem e hurl⟩
  | ok url =>
    right
    refine ⟨url, rfl, ?_⟩
    rcases hfetch : FetchTicketListingsByFeedUrl w log url with ⟨⟨nl, e⟩, log'⟩
    have hlog : log' = log ++ [url] := by
      have := fetch_log w log url
      rw [hfetch] at this
      exact this
    subst hlog
    cases e with
    | some e =>
      exact Or.inl ⟨_, loop_fetch_error w c input fuel log acc cursor rem url nl e _ hurl hfetch⟩
    | none =>
      by_cases hlen : sliceLen nl = 0
      · exact Or.inl ⟨_, loop_empty_page w c input fuel log acc cursor rem url nl _ hurl hfetch
          hlen⟩
      · rcases hproc : processFeedListings (sliceItems nl) rem input.CreatedAfter with
          ⟨processed, shouldBreak⟩
        cases shouldBreak with
        | true =>
          exact Or.inl ⟨_, loop_break w c input fuel log acc cursor rem url nl _ processed hurl
            hfetch hlen hproc⟩
        | false =>
          cases hlast : (acc ++ processed).getLast? with
          | none =>
            exact Or.inl ⟨_, loop_index_panic w c input fuel log acc cursor rem url nl _
              processed hurl hfetch hlen hproc hlast⟩
          | some last =>
            exact Or.inr ⟨_, _, _, loop_continue w c input fuel log acc cursor rem url nl _
              processed last hurl hfetch hlen hproc hlast⟩

/-- The loop only appends to the call log. -/
theorem loop_log_prefix (w : Env) (c : Client) (input : FetchTicketListingsInput) :
    ∀ (fuel : Nat) (log : List String) (acc : TicketListings) (cursor : Time) (rem : Int),
      log <+: (FetchTicketListings.loop w c input fuel log acc cursor rem).2 := by
  intro fuel
  induction fuel with
  | zero => intro log acc cursor rem; simp [FetchTicketListings.loop]
  | succ fuel ih =>
    intro log acc cursor rem
    rcases loop_cases w c input fuel log acc cursor rem with
      ⟨out, h⟩ | ⟨url, _, ⟨out, h⟩ | ⟨acc', cursor', rem', h⟩⟩
    · rw [h]
    · rw [h]; exact List.prefix_append _ _
    · rw [h]; exact (List.prefix_append _ _).trans (ih _ _ _ _)

/-- From any loop state: if the run requests, after the requests of `pre`, a URL for which
the transport serves a page of only null entries, the loop returns the error
"no listings returned" with the nil slice, and that request is the last one. -/
theorem loop_all_null (w : Env) (c : Client) (input : FetchTicketListingsInput) :
    ∀ (fuel : Nat) (log : List String) (acc : TicketListings) (cursor : Time) (rem : Int)
      (pre : List String) (url : String),
      AllNullPage w pre url → log <+: pre →
      (pre ++ [url]) <+: (FetchTicketListings.loop w c input fuel log acc cursor rem).2 →
      FetchTicketListings.loop w c input fuel log acc cursor rem =
        (.returned none (some (.new "no listings returned")), pre ++ [url]) := by
  intro fuel
  induction fuel with
  | zero =>
    intro log acc cursor rem pre url _ h1 h2
    exfalso
    simp only [FetchTicketListings.loop] at h2
    have := h1.length_le
    have := h2.length_le
    simp only [List.length_append, List.length_singleton] at this
    omega
  | succ fuel ih =>
    intro log acc cursor rem pre url hnull h1 h2
    by_cases hEq : pre = log
    · subst hEq
      rcases loop_cases w c input fuel pre acc cursor rem with
        ⟨out, h⟩ | ⟨url0, hurl, hcase⟩
      · exfalso
        rw [h] at h2
        have := h2.length_le
        simp only [List.length_append, List.length_singleton] at this
        omega
      · have hpf : (pre ++ [url0]) <+:
            (FetchTicketListings.loop w c input (fuel + 1) pre acc cursor rem).2 := by
          rcases hcase with ⟨out, h⟩ | ⟨acc', cursor', rem', h⟩
          · rw [h]
          · rw [h]; exact loop_log_prefix w c input _ _ _ _ _
        have hsame : pre ++ [url] = pre ++ [url0] :=
          (List.prefix_of_prefix_length_le h2 hpf (by simp)).eq_of_length (by simp)
        have hu : url = url0 := by simpa using hsame
        subst hu
        obtain ⟨r, body, entries, hg, hs, hb, hj, hall⟩ := hnull
        have hfetch := fetch_ok w pre url r body entries hg hs hb hj
        have hnone : entries.filterMap id = [] := by
          rw [List.filterMap_eq_nil_iff]
          intro e he
          rw [hall e he]; rfl
        rw [hnone] at hfetch
        exact loop_empty_page w c input fuel pre acc cursor rem url _ _ hurl hfetch rfl
    · have hlt : log.length < pre.length := by
        rcases Nat.lt_or_ge log.length pre.length with h | h
        · exact h
        · exact absurd (h1.eq_of_length_le h).symm hEq
      rcases loop_cases w c input fuel log acc cursor rem with
        ⟨out, h⟩ | ⟨url0, hurl, ⟨out, h⟩ | ⟨acc', cursor', rem', h⟩⟩
      · exfalso
        rw [h] at h2
        have := h2.length_le
        simp only [List.length_append, List.length_singleton] at this
        omega
      · exfalso
        rw [h] at h2
        have := h2.length_le
        simp only [List.length_append, List.length_singleton] at this
        omega
      · rw [h] at h2 ⊢
        have hp1 : (log ++ [url0]) <+:
            (FetchTicketListings.loop w c input fuel (log ++ [url0]) acc' cursor' rem').2 :=
          loop_log_prefix w c input _ _ _ _ _
        have hp2 : pre <+:
            (FetchTicketListings.loop w c input fuel (log ++ [url0]) acc' cursor' rem').2 :=
          (List.prefix_append _ _).trans h2
        exact ih _ _ _ _ pre url hnull
          (List.prefix_of_prefix_length_le hp1 hp2 (by simp; omega)) h2


/-! ## What the loop can return, for every environment -/

/-- Whenever the loop returns, it returns either the nil slice with an error, or no error and
the accumulator extended by listings created strictly after `CreatedAfter` that are non-null
entries of pages fetched in this run. -/
theorem loop_returned (w : Env) (c : Client) (input : FetchTicketListingsInput) :
    ∀ (fuel : Nat) (log : List String) (acc : TicketListings) (cursor : Time) (rem : Int)
      (res : Option TicketListings) (err : Option GoError) (logf : List String),
      FetchTicketListings.loop w c input fuel log acc cursor rem = (.returned res err, logf) →
      (res = none ∧ err ≠ none) ∨
      (err = none ∧ ∃ extra : List TicketListing, res = some (acc ++ extra) ∧
        ∀ l ∈ extra, input.CreatedAfter < l.CreatedAt.Time ∧ FetchedActive w logf l) := by
  intro fuel
  induction fuel with
  | zero =>
    intro log acc cursor rem res err logf h
    simp [FetchTicketListings.loop] at h
  | succ fuel ih =>
    intro log acc cursor rem res err logf h
    have hpre := loop_log_prefix w c input (fuel + 1) log acc cursor rem
    rw [h] at hpre
    cases hurl : w.FeedUrl ⟨c.apiKey, input.Country, input.Regions, cursor⟩ with
    | error e =>
      rw [loop_feedUrl_error w c input fuel log acc cursor rem e hurl] at h
      simp only [Prod.mk.injEq, Outcome.returned.injEq] at h
      left; exact ⟨h.1.1.symm, by rw [← h.1.2]; simp⟩
    | ok url =>
      rcases hfetch : FetchTicketListingsByFeedUrl w log url with ⟨⟨nl, e⟩, log'⟩
      have hlog : log' = log ++ [url] := by
        have := fetch_log w log url
        rw [hfetch] at this
        exact this
      subst hlog
      cases e with
      | some e =>
        rw [loop_fetch_error w c input fuel log acc cursor rem url nl e _ hurl hfetch] at h
        simp only [Prod.mk.injEq, Outcome.returned.injEq] at h
        left; exact ⟨h.1.1.symm, by rw [← h.1.2]; simp⟩
      | none =>
        by_cases hlen : sliceLen nl = 0
        · rw [loop_empty_page w c input fuel log acc cursor rem url nl _ hurl hfetch hlen] at h
          simp only [Prod.mk.injEq, Outcome.returned.injEq] at h
          left; exact ⟨h.1.1.symm, by rw [← h.1.2]; simp⟩
        · rcases hproc : processFeedListings (sliceItems nl) rem input.CreatedAfter with
            ⟨processed, shouldBreak⟩
          have hmem : ∀ logf' : List String, (log ++ [url]) <+: logf' → ∀ l ∈ processed,
              input.CreatedAfter < l.CreatedAt.Time ∧ FetchedActive w logf' l := by
            intro logf' hp l hl
            have := processFeedListings_mem (sliceItems nl) rem input.CreatedAfter l
              (by rw [hproc]; exact hl)
            exact ⟨this.2, log, url, hp, fetch_active w log url nl _ hfetch l this.1⟩
          cases shouldBreak with
          | true =>
            rw [loop_break w c input fuel log acc cursor rem url nl _ processed hurl hfetch
              hlen hproc] at h
            simp only [Prod.mk.injEq, Outcome.returned.injEq] at h
            right
            refine ⟨h.1.2.symm, processed, h.1.1.symm, ?_⟩
            rw [← h.2]
            exact hmem _ (List.prefix_refl _)
          | false =>
            cases hlast : (acc ++ processed).getLast? with
            | none =>
              rw [loop_index_panic w c input fuel log acc cursor rem url nl _ processed hurl
                hfetch hlen hproc hlast] at h
              simp at h
            | some last =>
              rw [loop_continue w c input fuel log acc cursor rem url nl _ processed last
                hurl hfetch hlen hproc hlast] at h
              have hp : (log ++ [url]) <+: logf := by
                have := loop_log_prefix w c input fuel (log ++ [url]) (acc ++ processed)
                  last.CreatedAt.Time
                  (input.MaxNumber - ((acc ++ processed).length : Int))
                rw [h] at this
                exact this
              rcases ih _ _ _ _ _ _ _ h with h1 | ⟨h1, extra, h2, h3⟩
              · left; exact h1
              · right
                refine ⟨h1, processed ++ extra, by rw [h2, List.append_assoc], ?_⟩
                intro l hl
                rcases List.mem_append.mp hl with hl | hl
                · exact hmem logf hp l hl
                · exact h3 l hl

/-- Whenever `FetchTicketListings` returns, it returns either the nil slice with an error, or
no error and listings created strictly after `CreatedAfter` that are non-null entries of
pages fetched in this run. -/
theorem fetch_returned (w : Env) (c : Client) (input : FetchTicketListingsInput) (fuel : Nat)
    (res : Option TicketListings) (err : Option GoError)
    (h : (FetchTicketListings w c input fuel).1 = .returned res err) :
    (res = none ∧ err ≠ none) ∨
    (err = none ∧ ∃ ls : List TicketListing, res = some ls ∧
      ∀ l ∈ ls, input.CreatedAfter < l.CreatedAt.Time ∧
        FetchedActive w (FetchTicketListings w c input fuel).2 l) := by
  cases hv : Validate w (applyDefaults w input) with
  | some e =>
    rw [fetch_of_invalid w c input fuel e hv] at h
    simp only [Outcome.returned.injEq] at h
    left; exact ⟨h.1.symm, by rw [← h.2]; simp⟩
  | none =>
    by_cases hcap : (applyDefaults w input).MaxNumber < 0 ∨
        w.MakeLimit < (applyDefaults w input).MaxNumber
    · rw [fetch_of_alloc_panic w c input fuel hv hcap] at h
      simp at h
    · rw [fetch_of_alloc_ok w c input fuel hv hcap] at h ⊢
      rcases loop_returned w c _ _ _ _ _ _ _ _ _ (Prod.ext h rfl) with
        h1 | ⟨h1, extra, h2, h3⟩
      · left; exact h1
      · right
        refine ⟨h1, extra, by simpa using h2, ?_⟩
        intro l hl
        rw [← applyDefaults_CreatedAfter w input]
        exact h3 l hl

/-! ## The first page of a run -/

/-- When the run makes a request from a loop state, the loop has fuel and the request is the
feed URL of the state's cursor. -/
theorem loop_first_request (w : Env) (c : Client) (input : FetchTicketListingsInput)
    (fuel : Nat) (log : List String) (acc : TicketListings) (cursor : Time) (rem : Int)
    (url : String)
    (h : (log ++ [url]) <+: (FetchTicketListings.loop w c input fuel log acc cursor rem).2) :
    ∃ fuel' : Nat, fuel = fuel' + 1 ∧
      w.FeedUrl ⟨c.apiKey, input.Country, input.Regions, cursor⟩ = .ok url := by
  cases fuel with
  | zero =>
    exfalso
    simp only [FetchTicketListings.loop] at h
    have := h.length_le
    simp only [List.length_append, List.length_singleton] at this
    omega
  | succ fuel =>
    refine ⟨fuel, rfl, ?_⟩
    rcases loop_cases w c input fuel log acc cursor rem with ⟨out, h1⟩ | ⟨url0, hurl, hcase⟩
    · exfalso
      rw [h1] at h
      have := h.length_le
      simp only [List.length_append, List.length_singleton] at this
      omega
    · have hpf : (log ++ [url0]) <+:
          (FetchTicketListings.loop w c input (fuel + 1) log acc cursor rem).2 := by
        rcases hcase with ⟨out, h1⟩ | ⟨acc', cursor', rem', h1⟩
        · rw [h1]
        · rw [h1]; exact loop_log_prefix w c input _ _ _ _ _
      have hsame : log ++ [url] = log ++ [url0] :=
        (List.prefix_of_prefix_length_le h hpf (by simp)).eq_of_length (by simp)
      have hu : url = url0 := by simpa using hsame
      rw [hu]
      exact hurl

/-- An iteration whose page is served with a first decoded listing that was not created
strictly after `CreatedAfter` returns the accumulator as it is, after that one request. -/
theorem loop_boundary (w : Env) (c : Client) (input : FetchTicketListingsInput)
    (fuel : Nat) (log : List String) (acc : TicketListings) (cursor : Time) (rem : Int)
    (url : String) (r : Response) (body : String) (entries : List (Option TicketListing))
    (first : TicketListing) (rest : List TicketListing)
    (hurl : w.FeedUrl ⟨c.apiKey, input.Country, input.Regions, cursor⟩ = .ok url)
    (hget : w.Get log url = .response r) (hs : r.IsSuccessState = true)
    (hbody : r.Body = .ok body) (hjson : w.jsonUnmarshal body = .ok entries)
    (hpage : entries.filterMap id = first :: rest)
    (hfirst : first.CreatedAt.Time ≤ input.CreatedAfter) :
    FetchTicketListings.loop w c input (fuel + 1) log acc cursor rem =
      (.returned (some acc) none, log ++ [url]) := by
  have hfetch := fetch_ok w log url r body entries hget hs hbody hjson
  rw [hpage] at hfetch
  have hproc := processFeedListings_first_not_after first rest rem input.CreatedAfter hfirst
  rw [loop_break w c input fuel log acc cursor rem url _ _ [] hurl hfetch (by simp [sliceLen])
    hproc, List.append_nil]

/-! ## The count bound, for every environment -/

/-- For a positive budget `k` the page scan keeps at most `k` listings, and fewer than `k`
when it does not ask to stop. -/
theorem processFeedListings_length (L : List TicketListing) (k : Nat) (hk : 0 < k) (t : Time) :
    (processFeedListings L (k : Int) t).1.length ≤ k ∧
    ((processFeedListings L (k : Int) t).2 = false →
      (processFeedListings L (k : Int) t).1.length < k) := by
  rw [processFeedListings_pos L k hk t]
  by_cases h : k ≤ (L.takeWhile (createdAfterP t)).length
  · rw [if_pos h]
    simp only [List.length_take]
    exact ⟨by omega, fun hf => by simp at hf⟩
  · rw [if_neg h]
    exact ⟨by simp only []; omega, fun _ => by simp only []; omega⟩

/-- From any loop state with fewer than `N = MaxNumber` listings accumulated and the budget
`N` minus their number, a return without error holds at most `N` listings. -/
theorem loop_length_le (w : Env) (c : Client) (input : FetchTicketListingsInput) (N : Nat)
    (hN : input.MaxNumber = (N : Int)) :
    ∀ (fuel : Nat) (log : List String) (acc : TicketListings) (cursor : Time)
      (res : Option TicketListings),
      acc.length < N →
      (FetchTicketListings.loop w c input fuel log acc cursor
        ((N : Int) - (acc.length : Int))).1 = .returned res none →
      (sliceItems res).length ≤ N := by
  intro fuel
  induction fuel with
  | zero =>
    intro log acc cursor res _ h
    simp [FetchTicketListings.loop] at h
  | succ fuel ih =>
    intro log acc cursor res hacc h
    have hk : ((N : Int) - (acc.length : Int)) = ((N - acc.length : Nat) : Int) := by omega
    rw [hk] at h
    cases hurl : w.FeedUrl ⟨c.apiKey, input.Country, input.Regions, cursor⟩ with
    | error e =>
      rw [loop_feedUrl_error w c input fuel log acc cursor _ e hurl] at h
      simp at h
    | ok url =>
      rcases hfetch : FetchTicketListingsByFeedUrl w log url with ⟨⟨nl, e⟩, log'⟩
      cases e with
      | some e =>
        rw [loop_fetch_error w c input fuel log acc cursor _ url nl e log' hurl hfetch] at h
        simp at h
      | none =>
        by_cases hlen : sliceLen nl = 0
        · rw [loop_empty_page w c input fuel log acc cursor _ url nl log' hurl hfetch hlen] at h
          simp at h
        · have hbound := processFeedListings_length (sliceItems nl) (N - acc.length)
            (by omega) input.CreatedAfter
          rcases hproc : processFeedListings (sliceItems nl) ((N - acc.length : Nat) : Int)
              input.CreatedAfter with ⟨processed, shouldBreak⟩
          rw [hproc] at hbound
          cases shouldBreak with
          | true =>
            rw [loop_break w c input fuel log acc cursor _ url nl log' processed hurl hfetch
              hlen hproc] at h
            simp only [Outcome.returned.injEq, and_true] at h
            subst h
            have := hbound.1
            simp only [sliceItems, List.length_append] at this ⊢
            omega
          | false =>
            have hlt := hbound.2 rfl
            simp only [] at hlt
            cases hlast : (acc ++ processed).getLast? with
            | none =>
              rw [loop_index_panic w c input fuel log acc cursor _ url nl log' processed hurl
                hfetch hlen hproc hlast] at h
              simp at h
            | some last =>
              rw [loop_continue w c input fuel log acc cursor _ url nl log' processed last
                hurl hfetch hlen hproc hlast, hN] at h
              exact ih _ _ _ res (by rw [List.length_append]; omega) h


/-! ## Derived prices -/

/-- For a positive ticket count, `Divide` yields the truncated quotient. -/
theorem Price.Divide_pos (p : Price) (n : Int) (hn : 1 ≤ n) :
    p.Divide n = some ⟨Int.tdiv p.Amount n⟩ := by
  unfold Price.Divide
  rw [if_neg (by omega)]

/-- For a positive ticket count, `TicketPriceExclFee` is the per-ticket share of the total
excluding fee plus the per-ticket share of the fee. -/
theorem TicketPriceExclFee_pos (l : TicketListing) (hn : 1 ≤ l.NumTickets) :
    l.TicketPriceExclFee =
      some ⟨Int.tdiv l.TotalPriceExclFee.Amount l.NumTickets +
        Int.tdiv l.TwicketsFee.Amount l.NumTickets⟩ := by
  simp [TicketListing.TicketPriceExclFee, TicketListing.TwicketsFeePerTicket,
    Price.Divide_pos _ _ hn, Price.Add]


/-! ## Filters and lookup -/

/-- The conjunction combinator is `List.all`. -/
theorem matchesAll_eq (l : TicketListing) (P : List TicketListingPredicate) :
    TicketListingMatchesAllPredicates l P = P.all (fun p => p l) := by
  induction P with
  | nil => rfl
  | cons p rest ih =>
    cases hp : p l <;> simp [TicketListingMatchesAllPredicates, hp, ih]

/-- The disjunction combinator is `List.any`. -/
theorem matchesAny_eq (l : TicketListing) (P : List TicketListingPredicate) :
    TicketListingMatchesAnyPredicate l P = P.any (fun p => p l) := by
  induction P with
  | nil => rfl
  | cons p rest ih =>
    cases hp : p l <;> simp [TicketListingMatchesAnyPredicate, hp, ih]

/-- The filter loop appends the matching listings, in order. -/
theorem filter_collect_eq (P : List TicketListingPredicate) (L acc : List TicketListing) :
    FilterTicketListings.collect P L acc =
      acc ++ L.filter (fun l => TicketListingMatchesAllPredicates l P) := by
  induction L generalizing acc with
  | nil => simp [FilterTicketListings.collect]
  | cons x rest ih =>
    cases hx : TicketListingMatchesAllPredicates x P <;>
      simp [FilterTicketListings.collect, hx, ih]

/-- The batch filter is `List.filter` by the conjunction of the predicates. -/
theorem filter_eq (L : List TicketListing) (P : List TicketListingPredicate) :
    FilterTicketListings L P = L.filter (fun l => P.all (fun p => p l)) := by
  unfold FilterTicketListings
  by_cases h : P.length = 0
  · have hP : P = [] := List.length_eq_zero.mp h
    subst hP
    simp
  · rw [if_neg h, filter_collect_eq, List.nil_append]
    congr 1
    funext l
    exact matchesAll_eq l P

/-- The lookup is `List.find?` by id. -/
theorem getById_eq (L : TicketListings) (id : String) :
    TicketListings.GetById L id = L.find? (fun l => decide (l.Id = id)) := by
  induction L with
  | nil => rfl
  | cons x rest ih =>
    by_cases hx : x.Id = id
    · simp [TicketListings.GetById, hx]
    · simp [TicketListings.GetById, hx, ih]


/-! ## The page scan against its reference definition -/

/-- The page scan computes the reference definition. -/
theorem processFeedListings_ref (L : List TicketListing) (n : Int) (t : Time) :
    processFeedListings L n t = processFeedListingsRef L n t := by
  unfold processFeedListings processFeedListingsRef
  rw [scan_eq]
  simp only [List.length_nil, Nat.cast_zero, zero_add, List.nil_append, sub_zero]
  rfl

/-- Among the prefixes of a page whose listings all pass a test, the one `takeWhile` yields
is the longest. -/
theorem takeWhile_longest (p : TicketListing → Bool) (L Q : List TicketListing)
    (hQ : Q <+: L) (hall : ∀ x ∈ Q, p x = true) : Q <+: L.takeWhile p := by
  induction L generalizing Q with
  | nil =>
    have : Q = [] := List.prefix_nil.mp hQ
    subst this
    exact List.nil_prefix
  | cons a rest ih =>
    cases Q with
    | nil => exact List.nil_prefix
    | cons b Q' =>
      obtain ⟨hab, hQ'⟩ := List.cons_prefix_cons.mp hQ
      subst hab
      have hb : p b = true := hall b (by simp)
      rw [List.takeWhile_cons_of_pos hb]
      exact List.cons_prefix_cons.mpr
        ⟨rfl, ih Q' hQ' (fun x hx => hall x (List.mem_cons_of_mem _ hx))⟩

/-- When the page scan does not ask to stop, it kept the whole page, and a positive budget
is larger than the page. -/
theorem processFeedListings_no_stop (L : List TicketListing) (n : Int) (t : Time)
    (processed : List TicketListing)
    (h : processFeedListings L n t = (processed, false)) :
    processed = L ∧ (0 < n → (L.length : Int) < n) := by
  unfold processFeedListings at h
  rw [scan_eq] at h
  simp only [List.length_nil, Nat.cast_zero, zero_add, List.nil_append, sub_zero] at h
  by_cases hc : 0 < n ∧ n ≤ ((L.takeWhile (createdAfterP t)).length : Int)
  · rw [if_pos hc] at h
    simp at h
  · rw [if_neg hc] at h
    simp only [Prod.mk.injEq, decide_eq_false_iff_not, not_lt] at h
    obtain ⟨h1, h2⟩ := h
    have hW : L.takeWhile (createdAfterP t) = L :=
      (List.takeWhile_sublist _).eq_of_length_le h2
    rw [hW] at h1 hc
    refine ⟨h1.symm, fun hn => ?_⟩
    by_contra hlt
    exact hc ⟨hn, by omega⟩

/-! ## Termination and the cursor update, for every environment -/

/-- The loop never panics: whenever it reaches the cursor update, the accumulator holds the
whole, non-empty page just appended. -/
theorem loop_never_panics (w : Env) (c : Client) (input : FetchTicketListingsInput) :
    ∀ (fuel : Nat) (log : List String) (acc : TicketListings) (cursor : Time) (rem : Int)
      (msg : String),
      (FetchTicketListings.loop w c input fuel log acc cursor rem).1 ≠ .panicked msg := by
  intro fuel
  induction fuel with
  | zero =>
    intro log acc cursor rem msg
    simp [FetchTicketListings.loop]
  | succ fuel ih =>
    intro log acc cursor rem msg
    cases hurl : w.FeedUrl ⟨c.apiKey, input.Country, input.Regions, cursor⟩ with
    | error e =>
      rw [loop_feedUrl_error w c input fuel log acc cursor rem e hurl]
      simp
    | ok url =>
      rcases hfetch : FetchTicketListingsByFeedUrl w log url with ⟨⟨nl, e⟩, log'⟩
      cases e with
      | some e =>
        rw [loop_fetch_error w c input fuel log acc cursor rem url nl e log' hurl hfetch]
        simp
      | none =>
        by_cases hlen : sliceLen nl = 0
        · rw [loop_empty_page w c input fuel log acc cursor rem url nl log' hurl hfetch hlen]
          simp
        · rcases hproc : processFeedListings (sliceItems nl) rem input.CreatedAfter with
            ⟨processed, shouldBreak⟩
          cases shouldBreak with
          | true =>
            rw [loop_break w c input fuel log acc cursor rem url nl log' processed hurl hfetch
              hlen hproc]
            simp
          | false =>
            have hwhole := (processFeedListings_no_stop _ _ _ _ hproc).1
            have hne : acc ++ processed ≠ [] := by
              intro h
              have hp : processed = [] := (List.append_eq_nil.mp h).2
              rw [hp] at hwhole
              apply hlen
              cases nl with
              | none => rfl
              | some xs =>
                simp only [sliceItems] at hwhole
                simp [sliceLen, ← hwhole]
            cases hlast : (acc ++ processed).getLast? with
            | none => exact absurd (List.getLast?_eq_none_iff.mp hlast) hne
            | some last =>
              rw [loop_continue w c input fuel log acc cursor rem url nl log' processed last
                hurl hfetch hlen hproc hlast]
              exact ih _ _ _ _ msg

/-- From any loop state with fewer than `N = MaxNumber` listings accumulated and the budget
`N` minus their number, the loop makes at most that many further page fetches, and with that
much fuel it ends. -/
theorem loop_terminates (w : Env) (c : Client) (input : FetchTicketListingsInput) (N : Nat)
    (hN : input.MaxNumber = (N : Int)) :
    ∀ (fuel : Nat) (log : List String) (acc : TicketListings) (cursor : Time),
      acc.length < N →
      (FetchTicketListings.loop w c input fuel log acc cursor
          ((N : Int) - (acc.length : Int))).2.length ≤ log.length + (N - acc.length) ∧
      (N - acc.length ≤ fuel →
        (FetchTicketListings.loop w c input fuel log acc cursor
          ((N : Int) - (acc.length : Int))).1 ≠ .running) := by
  intro fuel
  induction fuel with
  | zero =>
    intro log acc cursor hacc
    simp only [FetchTicketListings.loop]
    exact ⟨by omega, fun h => by omega⟩
  | succ fuel ih =>
    intro log acc cursor hacc
    cases hurl : w.FeedUrl ⟨c.apiKey, input.Country, input.Regions, cursor⟩ with
    | error e =>
      rw [loop_feedUrl_error w c input fuel log acc cursor _ e hurl]
      exact ⟨by simp, fun _ => by simp⟩
    | ok url =>
      rcases hfetch : FetchTicketListingsByFeedUrl w log url with ⟨⟨nl, e⟩, log'⟩
      have hlog : log' = log ++ [url] := by
        have := fetch_log w log url
        rw [hfetch] at this
        exact this
      subst hlog
      have hlog' : (log ++ [url]).length ≤ log.length + (N - acc.length) := by
        rw [List.length_append, List.length_singleton]; omega
      cases e with
      | some e =>
        rw [loop_fetch_error w c input fuel log acc cursor _ url nl e _ hurl hfetch]
        exact ⟨hlog', fun _ => by simp⟩
      | none =>
        by_cases hlen : sliceLen nl = 0
        · rw [loop_empty_page w c input fuel log acc cursor _ url nl _ hurl hfetch hlen]
          exact ⟨hlog', fun _ => by simp⟩
        · rcases hproc : processFeedListings (sliceItems nl)
              ((N : Int) - (acc.length : Int)) input.CreatedAfter with
            ⟨processed, shouldBreak⟩
          cases shouldBreak with
          | true =>
            rw [loop_break w c input fuel log acc cursor _ url nl _ processed hurl hfetch
              hlen hproc]
            exact ⟨hlog', fun _ => by simp⟩
          | false =>
            obtain ⟨hwhole, hlt⟩ := processFeedListings_no_stop _ _ _ _ hproc
            have hlt' := hlt (by omega)
            have hpos : 0 < processed.length := by
              rw [hwhole]
              cases nl with
              | none => exact absurd rfl hlen
              | some xs =>
                simp only [sliceLen] at hlen
                simp only [sliceItems]
                omega
            rw [← hwhole] at hlt'
            have hacc' : (acc ++ processed).length < N := by
              rw [List.length_append]; omega
            cases hlast : (acc ++ processed).getLast? with
            | none =>
              rw [loop_index_panic w c input fuel log acc cursor _ url nl _ processed hurl
                hfetch hlen hproc hlast]
              exact ⟨hlog', fun _ => by simp⟩
            | some last =>
              rw [loop_continue w c input fuel log acc cursor _ url nl _ processed last
                hurl hfetch hlen hproc hlast, hN]
              obtain ⟨h1, h2⟩ := ih (log ++ [url]) (acc ++ processed) last.CreatedAt.Time hacc'
              have hl : (acc ++ processed).length = acc.length + processed.length :=
                List.length_append _ _
              have hll : (log ++ [url]).length = log.length + 1 := by simp
              exact ⟨by omega, fun hf => h2 (by omega)⟩

/-- The error of `ValidateURL`, case by case: the empty string, a string that does not
parse, an empty host, or a scheme that lower-cases to "https". -/
theorem ValidateURL_error_iff (lib : UrlLib) (s : String) :
    ValidateURL lib s ≠ none ↔
      (s = "" ∨ (∃ e, lib.Parse s = .error e) ∨
        ∃ u, lib.Parse s = .ok u ∧ (u.Host = "" ∨ lib.ToLower u.Scheme = "https")) := by
  unfold ValidateURL
  by_cases hs : s = ""
  · simp [hs]
  · rw [if_neg hs]
    cases hp : lib.Parse s with
    | error e => simp
    | ok u =>
      by_cases hh : u.Host = ""
      · simp [hh]
      · by_cases hsch : lib.ToLower u.Scheme = "https"
        · simp [hs, hh, hsch]
        · simp [hs, hh, hsch]


/-! ## The claims -/

/-- C1: count-bounded fetch returns exactly the first `N` feed entries.  Under the feed model
(a feed `F` in strictly descending creation time, all after the zero time, served in pages
of `P ≥ 1` listings created strictly before the cursor), for every valid input with
`MaxNumber = N > 0` and `CreatedAfter` unset, if `F` has at least `N` listings created
strictly before `CreatedBefore` (and a slice of `N` listings, which the result is, can be
allocated), then with fuel for the feed `FetchTicketListings` returns no error and exactly
the first `N` of those listings, in feed order: `N` listings, in descending creation time. -/
theorem C1_count_bounded_fetch (w : Env) (c : Client) (input : FetchTicketListingsInput)
    (F : List TicketListing) (P N : Nat)
    (hvalid : Validate w (applyDefaults w input) = none)
    (hN : input.MaxNumber = (N : Int)) (hNpos : 0 < N) (hcap : (N : Int) ≤ w.MakeLimit)
    (hunset : Time.IsZero input.CreatedAfter = true)
    (hdesc : Descending F) (hzero : ∀ l ∈ F, 0 < l.CreatedAt.Time) (hP : 1 ≤ P)
    (hfeed : ServesFeed w c input F P)
    (hlen : N ≤ (F.filter (fun l => decide
      (l.CreatedAt.Time < (applyDefaults w input).CreatedBefore))).length)
    (fuel : Nat) (hfuel : F.length ≤ fuel) :
    (FetchTicketListings w c input fuel).1 =
        .returned (some ((F.filter (fun l => decide
          (l.CreatedAt.Time < (applyDefaults w input).CreatedBefore))).take N)) none ∧
      ((F.filter (fun l => decide
          (l.CreatedAt.Time < (applyDefaults w input).CreatedBefore))).take N).length = N ∧
      Descending ((F.filter (fun l => decide
          (l.CreatedAt.Time < (applyDefaults w input).CreatedBefore))).take N) := by
  have h0 : input.CreatedAfter = 0 := by simpa [Time.IsZero] using hunset
  have hwin : F.filter (fun l => decide (input.CreatedAfter < l.CreatedAt.Time ∧
        l.CreatedAt.Time < (applyDefaults w input).CreatedBefore)) =
      F.filter (fun l => decide
        (l.CreatedAt.Time < (applyDefaults w input).CreatedBefore)) := by
    apply List.filter_congr
    intro l hl
    have := hzero l hl
    simp [h0, this]
  refine ⟨?_, ?_, ?_⟩
  · have := fetch_feed w c input F P N hvalid hN hNpos hcap hdesc hP hfeed
      (Or.inr (by rw [hwin]; exact hlen)) fuel hfuel
    rw [hwin] at this
    exact this
  · rw [List.length_take]; omega
  · exact List.Pairwise.sublist ((List.take_sublist _ _).trans (List.filter_sublist _)) hdesc

/-- C1 on the test feed: 23 listings in pages of 10, `MaxNumber = 23`; all 23 are returned,
in feed order, after three page fetches. -/
theorem C1_count_bounded_fetch_witness :
    (FetchTicketListings (mockEnv 1000 (mockFeed 100 23) 10) mockClient inputMaxNumber 23).1 =
        .returned (some (mockFeed 100 23)) none ∧
      (FetchTicketListings (mockEnv 1000 (mockFeed 100 23) 10) mockClient
        inputMaxNumber 23).2.length = 3 :=
  ⟨(C1_count_bounded_fetch (mockEnv 1000 (mockFeed 100 23) 10) mockClient inputMaxNumber
      (mockFeed 100 23) 10 23 (by decide) (by decide) (by decide) (by decide) (by decide)
      (by unfold Descending; decide) (by decide) (by decide)
      (mockEnv_serves 1000 (mockFeed 100 23) 10 mockClient inputMaxNumber (by decide))
      (by decide) 23 (by decide)).1,
    by decide⟩

/-- C2: the lower time bound is sound for every feed.  For every environment (any page
contents, in any order, over any number of pages) and every input, whenever
`FetchTicketListings` returns without error, every returned listing was created strictly
after `CreatedAfter`. -/
theorem C2_lower_time_bound_sound (w : Env) (c : Client) (input : FetchTicketListingsInput)
    (fuel : Nat) (res : Option TicketListings)
    (h : (FetchTicketListings w c input fuel).1 = .returned res none) :
    ∀ l ∈ sliceItems res, input.CreatedAfter < l.CreatedAt.Time := by
  rcases fetch_returned w c input fuel res none h with ⟨_, h2⟩ | ⟨_, ls, h1, h2⟩
  · exact absurd rfl h2
  · subst h1
    intro l hl
    exact (h2 l hl).1

/-- C2 on the test feed: 20 listings in pages of 10 and `CreatedAfter = 84`; the 15 listings
returned, five of them from the second page, were all created after time 84. -/
theorem C2_lower_time_bound_sound_witness :
    (FetchTicketListings (mockEnv 1000 (mockFeed 100 20) 10) mockClient inputCreatedAfter 2).1 =
        .returned (some ((mockFeed 100 20).take 15)) none ∧
      ∀ l ∈ sliceItems (some ((mockFeed 100 20).take 15)), (84 : Time) < l.CreatedAt.Time :=
  ⟨by decide,
    C2_lower_time_bound_sound (mockEnv 1000 (mockFeed 100 20) 10) mockClient inputCreatedAfter 2
      (some ((mockFeed 100 20).take 15)) (by decide)⟩

/-- C3, the claim fails for a count above the allocation limit.  For every valid input
whose `MaxNumber = N > 0` is more than the platform can allocate listings for (as
`math.MaxInt64` is on every platform, a listing taking more than one byte),
`FetchTicketListings` returns no listings, whatever the feed holds: it panics when it
allocates the accumulator with capacity `MaxNumber`, before any page fetch. -/
theorem C3_large_count_allocation_panics (w : Env) (c : Client)
    (input : FetchTicketListingsInput)
    (hvalid : Validate w (applyDefaults w input) = none)
    (hpos : 0 < input.MaxNumber) (hmax : w.MakeLimit < input.MaxNumber) (fuel : Nat) :
    FetchTicketListings w c input fuel = (.panicked "makeslice: cap out of range", []) := by
  have hM : (applyDefaults w input).MaxNumber = input.MaxNumber := by
    rw [applyDefaults_MaxNumber, if_neg (by omega)]
  exact fetch_of_alloc_panic w c input fuel hvalid (Or.inr (by rw [hM]; exact hmax))

/-- C3 on the test feed of `TestFetchListingsPaginatedCreatedAfter`, with the count raised to
`math.MaxInt64`: `inputMaxInt` is valid, the feed of 20 listings in pages of 10 is in
descending creation time and holds a listing created before `CreatedBefore` and at or before
`CreatedAfter`, and 15 listings in the window; the call panics instead of returning them. -/
theorem C3_large_count_allocation_panics_witness :
    Validate (mockEnv 1000 (mockFeed 100 20) 10)
      (applyDefaults (mockEnv 1000 (mockFeed 100 20) 10) inputMaxInt) = none ∧
    inputMaxInt.MaxNumber = 9223372036854775807 ∧
    Descending (mockFeed 100 20) ∧
    (∃ l ∈ mockFeed 100 20,
      l.CreatedAt.Time <
        (applyDefaults (mockEnv 1000 (mockFeed 100 20) 10) inputMaxInt).CreatedBefore ∧
      l.CreatedAt.Time ≤ inputMaxInt.CreatedAfter) ∧
    ((mockFeed 100 20).filter (fun l => decide (inputMaxInt.CreatedAfter < l.CreatedAt.Time ∧
      l.CreatedAt.Time <
        (applyDefaults (mockEnv 1000 (mockFeed 100 20) 10) inputMaxInt).CreatedBefore))).length
      = 15 ∧
    FetchTicketListings (mockEnv 1000 (mockFeed 100 20) 10) mockClient inputMaxInt 20 =
      (.panicked "makeslice: cap out of range", []) :=
  ⟨by decide, by decide, by unfold Descending; decide, by decide, by decide,
    C3_large_count_allocation_panics (mockEnv 1000 (mockFeed 100 20) 10) mockClient
      inputMaxInt (by decide) (by decide) (by decide) 20⟩

/-- C4, the claim as stated fails: in `delistedFirstEnv` the first page holds only null
entries and the following page holds two active listings, yet for the default input
`FetchTicketListings` never returns without error: it returns the error
"no listings returned" after the first page. -/
theorem C4_delisted_page_counterexample :
    AllNullPage delistedFirstEnv [] "feed" ∧
    (FetchTicketListingsByFeedUrl delistedFirstEnv ["feed"] "feed").1 =
      (some [mockListing "a" 99 "event", mockListing "b" 98 "event"], none) ∧
    Validate delistedFirstEnv (applyDefaults delistedFirstEnv inputDefault) = none ∧
    (∀ fuel : Nat, FetchTicketListings delistedFirstEnv mockClient inputDefault (fuel + 1) =
      (.returned none (some (.new "no listings returned")), ["feed"])) ∧
    ¬ ∃ (fuel : Nat) (res : Option TicketListings),
      (FetchTicketListings delistedFirstEnv mockClient inputDefault fuel).1 =
        .returned res none := by
  refine ⟨⟨⟨true, "200 OK", "", .ok "delisted"⟩, "delisted", [none, none], rfl, rfl, rfl, rfl,
    by simp⟩, by decide, by decide, fun fuel => rfl, ?_⟩
  rintro ⟨fuel, res, h⟩
  cases fuel with
  | zero =>
    have : (FetchTicketListings delistedFirstEnv mockClient inputDefault 0).1 = .running := rfl
    rw [this] at h
    simp at h
  | succ fuel =>
    have : (FetchTicketListings delistedFirstEnv mockClient inputDefault (fuel + 1)).1 =
        .returned none (some (.new "no listings returned")) := rfl
    rw [this] at h
    simp at h

/-- C4, amended: a page made only of delisted entries stops the fetch.  For every environment
and input, if the run requests a page whose response list holds only null entries, then
`FetchTicketListings` returns the error "no listings returned" with the nil slice, and that
request is its last; and whenever it returns without error, every returned listing is the
payload of a non-null entry of a page fetched in that run (a request of its call log,
answered with a success), so delisted entries never appear in the result. -/
theorem C4_delisted_page_amended (w : Env) (c : Client) (input : FetchTicketListingsInput) :
    (∀ (fuel : Nat) (pre : List String) (url : String),
      AllNullPage w pre url →
      (pre ++ [url]) <+: (FetchTicketListings w c input fuel).2 →
      FetchTicketListings w c input fuel =
        (.returned none (some (.new "no listings returned")), pre ++ [url])) ∧
    (∀ (fuel : Nat) (res : Option TicketListings),
      (FetchTicketListings w c input fuel).1 = .returned res none →
      ∀ l ∈ sliceItems res, FetchedActive w (FetchTicketListings w c input fuel).2 l) := by
  constructor
  · intro fuel pre url hnull hpre
    cases hv : Validate w (applyDefaults w input) with
    | some e =>
      rw [fetch_of_invalid w c input fuel e hv] at hpre
      have := hpre.length_le
      simp at this
    | none =>
      by_cases hcap : (applyDefaults w input).MaxNumber < 0 ∨
          w.MakeLimit < (applyDefaults w input).MaxNumber
      · rw [fetch_of_alloc_panic w c input fuel hv hcap] at hpre
        have := hpre.length_le
        simp at this
      · rw [fetch_of_alloc_ok w c input fuel hv hcap] at hpre ⊢
        exact loop_all_null w c _ fuel [] [] _ _ pre url hnull (List.nil_prefix) hpre
  · intro fuel res h l hl
    rcases fetch_returned w c input fuel res none h with ⟨_, h2⟩ | ⟨_, ls, h1, h2⟩
    · exact absurd rfl h2
    · subst h1
      exact (h2 l hl).2

/-- C4 amended, on `delistedFirstEnv`: the first page holds only null entries, and the fetch
ends there with the error; and on `repeatingEnv`, whose page holds a null entry among three
listings: the five listings returned are non-null entries of pages fetched in the run. -/
theorem C4_delisted_page_amended_witness :
    FetchTicketListings delistedFirstEnv mockClient inputDefault 3 =
        (.returned none (some (.new "no listings returned")), [] ++ ["feed"]) ∧
      ∀ l ∈ sliceItems (some [mockListing "a" 99 "event", mockListing "b" 98 "event",
          mockListing "c" 97 "event", mockListing "a" 99 "event",
          mockListing "b" 98 "event"]),
        FetchedActive repeatingEnv
          (FetchTicketListings repeatingEnv mockClient inputFive 10).2 l :=
  ⟨(C4_delisted_page_amended delistedFirstEnv mockClient inputDefault).1 3 [] "feed"
      ⟨⟨true, "200 OK", "", .ok "delisted"⟩, "delisted", [none, none], rfl, rfl, rfl, rfl,
        by simp⟩
      ⟨[], rfl⟩,
    (C4_delisted_page_amended repeatingEnv mockClient inputFive).2 10 _ (by decide)⟩

/-- C5: the `CreatedAfter` boundary is exclusive.  For every valid input, if the newest
listing of the first page (the first decoded listing of the page the transport serves for the
first request) was not created strictly after `CreatedAfter`, as when its creation time
equals `CreatedAfter`, then whenever the run fetches that first page, `FetchTicketListings`
returns an empty listing sequence and no error, and that page fetch is its only one.  Such
runs exist: when the accumulator can be allocated and `url` is the feed URL for
`CreatedBefore`, fuel for one iteration gives this result. -/
theorem C5_created_after_boundary_exclusive (w : Env) (c : Client)
    (input : FetchTicketListingsInput) (fuel : Nat) (url : String) (r : Response)
    (body : String) (entries : List (Option TicketListing)) (first : TicketListing)
    (rest : List TicketListing)
    (hvalid : Validate w (applyDefaults w input) = none)
    (hget : w.Get [] url = .response r) (hs : r.IsSuccessState = true)
    (hbody : r.Body = .ok body) (hjson : w.jsonUnmarshal body = .ok entries)
    (hpage : entries.filterMap id = first :: rest)
    (hfirst : first.CreatedAt.Time ≤ input.CreatedAfter) :
    ([url] <+: (FetchTicketListings w c input fuel).2 →
      FetchTicketListings w c input fuel = (.returned (some []) none, [url])) ∧
    (0 ≤ (applyDefaults w input).MaxNumber →
      (applyDefaults w input).MaxNumber ≤ w.MakeLimit →
      w.FeedUrl ⟨c.apiKey, input.Country, input.Regions,
        (applyDefaults w input).CreatedBefore⟩ = .ok url →
      FetchTicketListings w c input (fuel + 1) = (.returned (some []) none, [url])) := by
  have hfirst' : first.CreatedAt.Time ≤ (applyDefaults w input).CreatedAfter := by
    rw [applyDefaults_CreatedAfter]; exact hfirst
  constructor
  · intro hpre
    by_cases hcap : (applyDefaults w input).MaxNumber < 0 ∨
        w.MakeLimit < (applyDefaults w input).MaxNumber
    · rw [fetch_of_alloc_panic w c input fuel hvalid hcap] at hpre
      have := hpre.length_le
      simp at this
    · rw [fetch_of_alloc_ok w c input fuel hvalid hcap] at hpre ⊢
      obtain ⟨fuel', hf, hurl⟩ := loop_first_request w c (applyDefaults w input) fuel [] []
        _ _ url (by simpa using hpre)
      subst hf
      exact loop_boundary w c (applyDefaults w input) fuel' [] [] _ _ url r body entries
        first rest hurl hget hs hbody hjson hpage hfirst'
  · intro h0 hlim hurl
    have hurl' : w.FeedUrl ⟨c.apiKey, (applyDefaults w input).Country,
        (applyDefaults w input).Regions, (applyDefaults w input).CreatedBefore⟩ = .ok url := by
      rw [applyDefaults_Country, applyDefaults_Regions]; exact hurl
    rw [fetch_of_alloc_ok w c input (fuel + 1) hvalid
      (not_or.mpr ⟨by omega, by omega⟩)]
    exact loop_boundary w c (applyDefaults w input) fuel [] [] _ _ url r body entries
      first rest hurl' hget hs hbody hjson hpage hfirst'

/-- C5 on the test feed of `TestFetchListingsCreatedAfterLatestListingReturnsNothing`: the
newest of 10 listings was created at time 99, which is `CreatedAfter`; the run fetches the
first page and returns an empty sequence and no error after that single fetch. -/
theorem C5_created_after_boundary_exclusive_witness :
    FetchTicketListings (mockEnv 1000 (mockFeed 100 10) 10) mockClient inputBoundary 5 =
      (.returned (some []) none, [mockUrl 100]) :=
  (C5_created_after_boundary_exclusive (mockEnv 1000 (mockFeed 100 10) 10) mockClient
    inputBoundary 5 (mockUrl 100) ⟨true, "200 OK", "", .ok (mockUrl 100)⟩ (mockUrl 100)
    ((feedPage (mockFeed 100 10) 10 ((mockUrl 100).length : Nat)).map some)
    (mockListing "0" 99 "event") ((mockFeed 100 10).tail)
    (by decide) rfl rfl rfl rfl (by decide) (by decide)).1 (by decide)

/-- C6, the claim fails: when the transport call fails, `FetchTicketListingsByFeedUrl`
returns the nil slice and the nil error, and `FetchTicketListings` returns the error
"no listings returned" instead of the transport error. -/
theorem C6_transport_error_dropped :
    failingEnv.Get [] "feed" = .failed (.new "connection refused") ∧
    FetchTicketListingsByFeedUrl failingEnv [] "feed" = ((none, none), ["feed"]) ∧
    ∀ fuel : Nat, FetchTicketListings failingEnv mockClient inputDefault (fuel + 1) =
      (.returned none (some (.new "no listings returned")), ["feed"]) :=
  ⟨rfl, rfl, fun _ => rfl⟩

/-- C7: all-or-nothing on failure.  For every environment and input, whenever
`FetchTicketListings` returns a non-nil error, the returned listing sequence is nil. -/
theorem C7_all_or_nothing (w : Env) (c : Client) (input : FetchTicketListingsInput)
    (fuel : Nat) (res : Option TicketListings) (e : GoError)
    (h : (FetchTicketListings w c input fuel).1 = .returned res (some e)) :
    res = none := by
  rcases fetch_returned w c input fuel res (some e) h with ⟨h1, _⟩ | ⟨h1, _⟩
  · exact h1
  · simp at h1

/-- C7 on the test feed: the window reaches below the 20 listings of the feed, so after two
full pages the third page is empty; the fetch returns the error and the nil slice, not the
20 listings accumulated. -/
theorem C7_all_or_nothing_witness :
    (FetchTicketListings (mockEnv 1000 (mockFeed 100 20) 10) mockClient inputWideWindow 5).1 =
        .returned none (some (.new "no listings returned")) ∧
      (FetchTicketListings (mockEnv 1000 (mockFeed 100 20) 10) mockClient
        inputWideWindow 5).2.length = 3 ∧
      (none : Option TicketListings) = none :=
  ⟨by decide, by decide,
    C7_all_or_nothing (mockEnv 1000 (mockFeed 100 20) 10) mockClient inputWideWindow 5 none
      (.new "no listings returned") (by decide)⟩

/-- C8: `Validate` fails exactly on contradictory bounds.  For every input, `Validate`
returns an error if and only if the country value is empty, or the country is not in the
known set, or `CreatedBefore` is strictly before `CreatedAfter`, or `MaxNumber` is negative
while `CreatedAfter` is the zero time; otherwise (also when `CreatedBefore` equals
`CreatedAfter`) it returns nil. -/
theorem C8_validate_iff (w : Env) (f : FetchTicketListingsInput) :
    Validate w f ≠ none ↔
      (f.Country.Value = "" ∨ w.CountriesContains f.Country = false ∨
        f.CreatedBefore < f.CreatedAfter ∨ (f.MaxNumber < 0 ∧ f.CreatedAfter = 0)) := by
  unfold Validate
  simp only [Time.Before, Time.IsZero, Bool.and_eq_true, decide_eq_true_eq,
    Bool.not_eq_true']
  split_ifs with h1 h2 h3 h4
  · simp [h1]
  · simp [h2]
  · simp [h3]
  · simp [h4]
  · constructor
    · intro h; exact absurd rfl h
    · rintro (h | h | h | h)
      · exact absurd h h1
      · exact absurd h h2
      · exact absurd h h3
      · exact absurd h h4

/-- C9: invalid bounds cause no network activity.  For every input whose defaulted form fails
`Validate` with an error, `FetchTicketListings` returns that error wrapped as
"invalid input: ...", with the nil slice, and the call log stays empty. -/
theorem C9_invalid_input_no_fetch (w : Env) (c : Client) (input : FetchTicketListingsInput)
    (fuel : Nat) (e : GoError) (h : Validate w (applyDefaults w input) = some e) :
    FetchTicketListings w c input fuel =
      (.returned none (some (.wrap "invalid input: " e)), []) := by
  unfold FetchTicketListings
  rw [h]

/-- C9 on an input without a country: the fetch fails on validation with no request. -/
theorem C9_invalid_input_no_fetch_witness :
    FetchTicketListings (mockEnv 1000 (mockFeed 100 20) 10) mockClient inputNoCountry 5 =
      (.returned none (some (.wrap "invalid input: " (.new "country must be set"))), []) :=
  C9_invalid_input_no_fetch (mockEnv 1000 (mockFeed 100 20) 10) mockClient inputNoCountry 5
    (.new "country must be set") (by decide)

/-- C10, the claim fails: for every input that passes `Validate` with a negative
`MaxNumber`, `FetchTicketListings` panics when it allocates the accumulator with that
capacity, before any page fetch, whatever the fuel. -/
theorem C10_no_limit_allocation_panics (w : Env) (c : Client)
    (input : FetchTicketListingsInput) (fuel : Nat)
    (hvalid : Validate w (applyDefaults w input) = none) (hneg : input.MaxNumber < 0) :
    FetchTicketListings w c input fuel = (.panicked "makeslice: cap out of range", []) := by
  have hM : (applyDefaults w input).MaxNumber < 0 := by
    rw [applyDefaults_MaxNumber, if_neg (by omega)]; exact hneg
  exact fetch_of_alloc_panic w c input fuel hvalid (Or.inl hM)

/-- C10 on the test feed: `MaxNumber = -1` with `CreatedAfter = 84` set passes `Validate`,
the feed holds listings at or before time 84, and the fetch panics. -/
theorem C10_no_limit_allocation_panics_witness :
    (∃ l ∈ mockFeed 100 20, l.CreatedAt.Time ≤ inputNoLimitWindow.CreatedAfter) ∧
    FetchTicketListings (mockEnv 1000 (mockFeed 100 20) 10) mockClient inputNoLimitWindow 20 =
      (.panicked "makeslice: cap out of range", []) :=
  ⟨by decide,
    C10_no_limit_allocation_panics (mockEnv 1000 (mockFeed 100 20) 10) mockClient
      inputNoLimitWindow 20 (by decide) (by decide)⟩


/-- C11: `MaxNumber` is an upper bound on the result for every feed.  For every environment
(pages of any size, order or content) and every input with `MaxNumber = N > 0`, whenever
`FetchTicketListings` returns without error, the result has at most `N` listings. -/
theorem C11_max_number_upper_bound (w : Env) (c : Client) (input : FetchTicketListingsInput)
    (N : Nat) (hN : input.MaxNumber = (N : Int)) (hNpos : 0 < N) (fuel : Nat)
    (res : Option TicketListings)
    (h : (FetchTicketListings w c input fuel).1 = .returned res none) :
    (sliceItems res).length ≤ N := by
  have hN' : (applyDefaults w input).MaxNumber = (N : Int) := by
    rw [applyDefaults_MaxNumber, if_neg (by omega), hN]
  cases hv : Validate w (applyDefaults w input) with
  | some e =>
    rw [fetch_of_invalid w c input fuel e hv] at h
    simp at h
  | none =>
    by_cases hcap : (applyDefaults w input).MaxNumber < 0 ∨
        w.MakeLimit < (applyDefaults w input).MaxNumber
    · rw [fetch_of_alloc_panic w c input fuel hv hcap] at h
      simp at h
    · rw [fetch_of_alloc_ok w c input fuel hv hcap, hN'] at h
      exact loop_length_le w c (applyDefaults w input) N hN' fuel [] []
        (applyDefaults w input).CreatedBefore res (by simpa using hNpos) (by simpa using h)

/-- C11 on a feed that serves the same page of three listings for ever: with `MaxNumber = 5`
the fetch returns after two pages, with five listings. -/
theorem C11_max_number_upper_bound_witness :
    (FetchTicketListings repeatingEnv mockClient inputFive 10).1 =
        .returned (some [mockListing "a" 99 "event", mockListing "b" 98 "event",
          mockListing "c" 97 "event", mockListing "a" 99 "event",
          mockListing "b" 98 "event"]) none ∧
      (sliceItems (some [mockListing "a" 99 "event", mockListing "b" 98 "event",
          mockListing "c" 97 "event", mockListing "a" 99 "event",
          mockListing "b" 98 "event"])).length ≤ 5 :=
  ⟨by decide,
    C11_max_number_upper_bound repeatingEnv mockClient inputFive 5 (by decide) (by decide) 10
      _ (by decide)⟩

/-- C12: the feed decoder drops tombstones and keeps order.  For every page that
`json.Unmarshal` decodes to a response list of entries, each a listing payload or null,
`UnmarshalTwicketsFeedJson` returns, without error, exactly the payloads of the non-null
entries in their order in the response: as many listings as there are non-null entries, and
an empty, non-nil sequence when every entry is null. -/
theorem C12_decoder_drops_tombstones (w : Env) (data : String)
    (entries : List (Option TicketListing)) (h : w.jsonUnmarshal data = .ok entries) :
    UnmarshalTwicketsFeedJson w data = (some (entries.filterMap id), none) ∧
    (entries.filterMap id).map some = entries.filter Option.isSome ∧
    (entries.filterMap id).length = entries.countP Option.isSome ∧
    ((∀ e ∈ entries, e = none) → UnmarshalTwicketsFeedJson w data = (some [], none)) := by
  have h1 : UnmarshalTwicketsFeedJson w data = (some (entries.filterMap id), none) := by
    simp [UnmarshalTwicketsFeedJson, h, collect_eq]
  have h2 : (entries.filterMap id).map some = entries.filter Option.isSome := by
    clear h h1
    induction entries with
    | nil => rfl
    | cons e rest ih =>
      cases e with
      | none => simpa using ih
      | some l => simpa using ih
  refine ⟨h1, h2, ?_, ?_⟩
  · rw [List.countP_eq_length_filter, ← h2, List.length_map]
  · intro hall
    rw [h1]
    have : entries.filterMap id = [] := by
      rw [List.filterMap_eq_nil_iff]
      intro e he
      rw [hall e he]; rfl
    rw [this]

/-- C12 on a page as the mock responses build it, with a delisted entry after the second
listing: the two listings are returned in order. -/
theorem C12_decoder_drops_tombstones_witness :
    UnmarshalTwicketsFeedJson repeatingEnv "page" =
      (some ([some (mockListing "a" 99 "event"), none, some (mockListing "b" 98 "event"),
        some (mockListing "c" 97 "event")].filterMap id), none) :=
  (C12_decoder_drops_tombstones repeatingEnv "page"
    [some (mockListing "a" 99 "event"), none, some (mockListing "b" 98 "event"),
      some (mockListing "c" 97 "event")] rfl).1

/-- C13, the claim as stated fails: for the body `{}`, an object without the field
`responseData`, which `json.Unmarshal` accepts and decodes to an empty response list,
`UnmarshalTwicketsFeedJson` returns an empty, non-nil listing sequence and no error. -/
theorem C13_missing_wrapper_counterexample :
    emptyObjectEnv.jsonUnmarshal "{}" = .ok [] ∧
    UnmarshalTwicketsFeedJson emptyObjectEnv "{}" = (some [], none) :=
  ⟨rfl, rfl⟩

/-- C13, amended: a missing page wrapper is not a decode failure of its own.
`UnmarshalTwicketsFeedJson` returns an error exactly when `json.Unmarshal` does, and then
that error wrapped as "failed to unmarshal response: ..." with the nil slice; an input that
`json.Unmarshal` accepts with an empty response list, as it does an object without the field
`responseData`, yields an empty, non-nil listing sequence and no error. -/
theorem C13_missing_wrapper_amended (w : Env) (data : String) :
    ((UnmarshalTwicketsFeedJson w data).2 ≠ none ↔ ∃ e, w.jsonUnmarshal data = .error e) ∧
    (∀ e, w.jsonUnmarshal data = .error e →
      UnmarshalTwicketsFeedJson w data =
        (none, some (.wrap "failed to unmarshal response: " e))) ∧
    (w.jsonUnmarshal data = .ok [] → UnmarshalTwicketsFeedJson w data = (some [], none)) := by
  refine ⟨?_, ?_, ?_⟩
  · cases h : w.jsonUnmarshal data with
    | error e => simp [UnmarshalTwicketsFeedJson, h]
    | ok entries => simp [UnmarshalTwicketsFeedJson, h]
  · intro e h
    simp [UnmarshalTwicketsFeedJson, h]
  · intro h
    simp [UnmarshalTwicketsFeedJson, h, UnmarshalTwicketsFeedJson.collect]

/-- C13 amended, on the body `{}`: an empty, non-nil sequence and no error. -/
theorem C13_missing_wrapper_amended_witness :
    UnmarshalTwicketsFeedJson emptyObjectEnv "{}" = (some [], none) :=
  (C13_missing_wrapper_amended emptyObjectEnv "{}").2.2 rfl


/-- C14, the claim fails: for a listing of 2 tickets with total 1000 excluding fee and fee
200, `TicketPriceExclFee` is 600, not the total excluding fee divided by the ticket count
(500); it holds the per-ticket fee, and it changes when only `TwicketsFee` changes. -/
theorem C14_ticket_price_excl_fee_holds_fee :
    (pricedListing "a" 2 1000 200 1000).TicketPriceExclFee = some ⟨600⟩ ∧
    (pricedListing "a" 2 1000 200 1000).TotalPriceExclFee.Divide
      (pricedListing "a" 2 1000 200 1000).NumTickets = some ⟨500⟩ ∧
    (pricedListing "a" 2 1000 0 1000).TicketPriceExclFee = some ⟨500⟩ :=
  ⟨by decide, by decide, by decide⟩

/-- C15: the per-ticket price is consistent with the total.  With `Price` an integer amount
of minor units whose `Divide` truncates, for every listing with `NumTickets = n ≥ 1` and
non-negative amounts, `TotalPriceInclFee` has amount `TotalPriceExclFee + TwicketsFee`
exactly, and `TicketPriceInclFee` is an amount `q` with `q * n ≤ total < (q + 1) * n`, and
`q * n = total` whenever `n` divides the total. -/
theorem C15_per_ticket_price_consistent (l : TicketListing) (hn : 1 ≤ l.NumTickets)
    (hp : 0 ≤ l.TotalPriceExclFee.Amount) (hf : 0 ≤ l.TwicketsFee.Amount) :
    l.TotalPriceInclFee.Amount = l.TotalPriceExclFee.Amount + l.TwicketsFee.Amount ∧
    ∃ q : Int, l.TicketPriceInclFee = some ⟨q⟩ ∧
      q * l.NumTickets ≤ l.TotalPriceInclFee.Amount ∧
      l.TotalPriceInclFee.Amount < (q + 1) * l.NumTickets ∧
      (l.NumTickets ∣ l.TotalPriceInclFee.Amount →
        q * l.NumTickets = l.TotalPriceInclFee.Amount) := by
  have hsum : l.TotalPriceInclFee.Amount =
      l.TotalPriceExclFee.Amount + l.TwicketsFee.Amount := rfl
  have hnn : 0 ≤ l.TotalPriceInclFee.Amount := by rw [hsum]; omega
  refine ⟨hsum, Int.tdiv l.TotalPriceInclFee.Amount l.NumTickets, ?_, ?_, ?_, ?_⟩
  · exact Price.Divide_pos _ _ hn
  · rw [Int.tdiv_eq_ediv hnn (by omega)]
    exact Int.ediv_mul_le _ (by omega)
  · exact Int.lt_tdiv_add_one_mul_self _ (by omega)
  · intro hdvd
    exact Int.tdiv_mul_cancel hdvd

/-- C15 on a listing of 3 tickets with total 1000 and fee 100: the total including fee is
1100 and the per-ticket price is 366, with `366 * 3 ≤ 1100 < 367 * 3`. -/
theorem C15_per_ticket_price_consistent_witness :
    (pricedListing "a" 3 1000 100 1000).TicketPriceInclFee = some ⟨366⟩ ∧
    (pricedListing "a" 3 1000 100 1000).TotalPriceInclFee.Amount =
      (pricedListing "a" 3 1000 100 1000).TotalPriceExclFee.Amount +
        (pricedListing "a" 3 1000 100 1000).TwicketsFee.Amount ∧
    ∃ q : Int, (pricedListing "a" 3 1000 100 1000).TicketPriceInclFee = some ⟨q⟩ ∧
      q * (pricedListing "a" 3 1000 100 1000).NumTickets ≤
        (pricedListing "a" 3 1000 100 1000).TotalPriceInclFee.Amount ∧
      (pricedListing "a" 3 1000 100 1000).TotalPriceInclFee.Amount <
        (q + 1) * (pricedListing "a" 3 1000 100 1000).NumTickets ∧
      ((pricedListing "a" 3 1000 100 1000).NumTickets ∣
          (pricedListing "a" 3 1000 100 1000).TotalPriceInclFee.Amount →
        q * (pricedListing "a" 3 1000 100 1000).NumTickets =
          (pricedListing "a" 3 1000 100 1000).TotalPriceInclFee.Amount) :=
  ⟨by decide,
    C15_per_ticket_price_consistent (pricedListing "a" 3 1000 100 1000) (by decide)
      (by decide) (by decide)⟩

/-- C17: `FilterTicketListings` keeps exactly the matching listings.  For every listing
sequence `L` and predicate list `P`, the result is the subsequence of `L` of the listings
that satisfy every predicate of `P`, in their order and multiplicity; with no predicate the
result is `L` unchanged, and for empty `L` the result is empty. -/
theorem C17_filter_keeps_matching (L : List TicketListing)
    (P : List TicketListingPredicate) :
    FilterTicketListings L P = L.filter (fun l => decide (∀ p ∈ P, p l = true)) ∧
    FilterTicketListings L [] = L ∧
    FilterTicketListings [] P = [] := by
  refine ⟨?_, ?_, ?_⟩
  · rw [filter_eq]
    congr 1
    funext l
    rw [Bool.eq_iff_iff, List.all_eq_true, decide_eq_true_iff]
  · rfl
  · rw [filter_eq]; rfl

/-- C17 on the sample listings: of the four, the two with two tickets and a total below 1000
are kept, in order. -/
theorem C17_filter_keeps_matching_witness :
    FilterTicketListings sampleListings [hasTwoTickets, isCheap] =
        [pricedListing "a" 2 500 50 800, pricedListing "c" 2 900 90 1000] ∧
      FilterTicketListings sampleListings [hasTwoTickets, isCheap] =
        sampleListings.filter
          (fun l => decide (∀ p ∈ [hasTwoTickets, isCheap], p l = true)) :=
  ⟨by decide, (C17_filter_keeps_matching sampleListings [hasTwoTickets, isCheap]).1⟩

/-- C18: predicate combination is commutative and associative for the filtered set.  For
every listing sequence `L` and predicate lists `P`, `Q`: filtering by a permutation of `P`
equals filtering by `P`; filtering by `P` and then by `Q` equals filtering once by `P ++ Q`;
and filtering twice by `P` equals filtering once. -/
theorem C18_filter_commutative_associative (L : List TicketListing)
    (P Q : List TicketListingPredicate) :
    (∀ P' : List TicketListingPredicate, P'.Perm P →
      FilterTicketListings L P' = FilterTicketListings L P) ∧
    FilterTicketListings (FilterTicketListings L P) Q = FilterTicketListings L (P ++ Q) ∧
    FilterTicketListings (FilterTicketListings L P) P = FilterTicketListings L P := by
  refine ⟨?_, ?_, ?_⟩
  · intro P' hperm
    rw [filter_eq, filter_eq]
    apply List.filter_congr
    intro l _
    rw [Bool.eq_iff_iff, List.all_eq_true, List.all_eq_true]
    exact ⟨fun h p hp => h p (hperm.symm.subset hp), fun h p hp => h p (hperm.subset hp)⟩
  · rw [filter_eq, filter_eq, filter_eq, List.filter_filter]
    apply List.filter_congr
    intro l _
    rw [List.all_append, Bool.and_comm]
  · rw [filter_eq, filter_eq, List.filter_filter]
    apply List.filter_congr
    intro l _
    rw [Bool.and_self]

/-- C18 on the sample listings: the two orders of the two sample predicates give the same
result. -/
theorem C18_filter_commutative_associative_witness :
    FilterTicketListings sampleListings [isCheap, hasTwoTickets] =
      FilterTicketListings sampleListings [hasTwoTickets, isCheap] :=
  (C18_filter_commutative_associative sampleListings [hasTwoTickets, isCheap] []).1
    [isCheap, hasTwoTickets] (List.Perm.swap _ _ _)

/-- C19: the two combinators are conjunction and disjunction.  For every listing `l` and
predicate list `P`, `TicketListingMatchesAllPredicates` is true iff every predicate of `P`
holds of `l` (true for empty `P`), `TicketListingMatchesAnyPredicate` is true iff some
predicate of `P` holds of `l` (false for empty `P`), and the second is the negation of the
first on the negated predicates. -/
theorem C19_combinators (l : TicketListing) (P : List TicketListingPredicate) :
    (TicketListingMatchesAllPredicates l P = true ↔ ∀ p ∈ P, p l = true) ∧
    (TicketListingMatchesAnyPredicate l P = true ↔ ∃ p ∈ P, p l = true) ∧
    TicketListingMatchesAllPredicates l [] = true ∧
    TicketListingMatchesAnyPredicate l [] = false ∧
    TicketListingMatchesAnyPredicate l P =
      !TicketListingMatchesAllPredicates l (P.map (fun p => fun x => !p x)) := by
  refine ⟨?_, ?_, rfl, rfl, ?_⟩
  · rw [matchesAll_eq, List.all_eq_true]
  · rw [matchesAny_eq, List.any_eq_true]
  · rw [matchesAny_eq, matchesAll_eq]
    induction P with
    | nil => rfl
    | cons p rest ih =>
      cases hp : p l <;> simp [hp, ih]

/-- C19 on the first sample listing: both sample predicates hold of it. -/
theorem C19_combinators_witness :
    TicketListingMatchesAllPredicates (pricedListing "a" 2 500 50 800)
      [hasTwoTickets, isCheap] = true :=
  (C19_combinators (pricedListing "a" 2 500 50 800) [hasTwoTickets, isCheap]).1.mpr
    (by decide)

/-- C20: `GetById` returns the first match or none.  For every listing sequence `L` and id
`s`, `GetById` returns nil iff no listing of `L` has id `s`; otherwise it returns the listing
at the smallest index whose id is `s`, also when several listings share that id. -/
theorem C20_get_by_id_first_match (L : TicketListings) (s : String) :
    (TicketListings.GetById L s = none ↔ ∀ l ∈ L, l.Id ≠ s) ∧
    (∀ x : TicketListing, TicketListings.GetById L s = some x →
      ∃ i : Nat, L[i]? = some x ∧ x.Id = s ∧
        ∀ j : Nat, j < i → ∀ y : TicketListing, L[j]? = some y → y.Id ≠ s) := by
  constructor
  · rw [getById_eq, List.find?_eq_none]
    simp
  · induction L with
    | nil => intro x h; simp [TicketListings.GetById] at h
    | cons a rest ih =>
      intro x h
      by_cases ha : a.Id = s
      · simp only [TicketListings.GetById, ha, if_true, Option.some.injEq] at h
        subst h
        exact ⟨0, by simp, ha, fun j hj => absurd hj (Nat.not_lt_zero j)⟩
      · simp only [TicketListings.GetById, ha, if_false] at h
        obtain ⟨i, hi, hx, hmin⟩ := ih x h
        refine ⟨i + 1, by simpa using hi, hx, ?_⟩
        intro j hj y hy
        cases j with
        | zero =>
          have : a = y := by simpa using hy
          subst this
          exact ha
        | succ j => exact hmin j (by omega) y (by simpa using hy)

/-- C20 on the sample listings: two listings share the id "a"; the lookup returns the first
of them, the one with two tickets. -/
theorem C20_get_by_id_first_match_witness :
    TicketListings.GetById sampleListings "a" = some (pricedListing "a" 2 500 50 800) ∧
      ∃ i : Nat, sampleListings[i]? = some (pricedListing "a" 2 500 50 800) ∧
        (pricedListing "a" 2 500 50 800).Id = "a" ∧
        ∀ j : Nat, j < i → ∀ y : TicketListing, sampleListings[j]? = some y → y.Id ≠ "a" :=
  ⟨by decide,
    (C20_get_by_id_first_match sampleListings "a").2 (pricedListing "a" 2 500 50 800)
      (by decide)⟩


/-- C21: the default count is 10.  For every environment and every input with `CreatedBefore`
set and `MaxNumber = 0`, `FetchTicketListings` returns the same outcome, with the same page
fetches, as for the same input with `MaxNumber = 10`; and `applyDefaults` changes `MaxNumber`
only when it is 0 (to 10) and `CreatedBefore` only when it is the zero time (to the current
time), and leaves `Country`, `Regions` and `CreatedAfter` as they are. -/
theorem C21_default_count (w : Env) (c : Client) (input : FetchTicketListingsInput)
    (fuel : Nat) :
    (Time.IsZero input.CreatedBefore = false → input.MaxNumber = 0 →
      FetchTicketListings w c input fuel =
        FetchTicketListings w c { input with MaxNumber := 10 } fuel) ∧
    (applyDefaults w input).MaxNumber = (if input.MaxNumber = 0 then 10 else input.MaxNumber) ∧
    (applyDefaults w input).CreatedBefore =
      (if Time.IsZero input.CreatedBefore then w.Now else input.CreatedBefore) ∧
    (applyDefaults w input).Country = input.Country ∧
    (applyDefaults w input).Regions = input.Regions ∧
    (applyDefaults w input).CreatedAfter = input.CreatedAfter := by
  refine ⟨?_, applyDefaults_MaxNumber w input, applyDefaults_CreatedBefore w input,
    applyDefaults_Country w input, applyDefaults_Regions w input,
    applyDefaults_CreatedAfter w input⟩
  intro _ hM
  have h : applyDefaults w input = applyDefaults w { input with MaxNumber := 10 } := by
    simp [applyDefaults, hM]
  unfold FetchTicketListings
  rw [h]

/-- C21 on the test feed of `TestFetchListings`: with `MaxNumber` unset the fetch is the one
for `MaxNumber = 10`, and returns the 10 listings of the feed. -/
theorem C21_default_count_witness :
    (FetchTicketListings (mockEnv 1000 (mockFeed 100 10) 10) mockClient inputDefault 5).1 =
        .returned (some (mockFeed 100 10)) none ∧
      FetchTicketListings (mockEnv 1000 (mockFeed 100 10) 10) mockClient inputDefault 5 =
        FetchTicketListings (mockEnv 1000 (mockFeed 100 10) 10) mockClient inputTen 5 :=
  ⟨by decide,
    (C21_default_count (mockEnv 1000 (mockFeed 100 10) 10) mockClient inputDefault 5).1
      (by decide) (by decide)⟩

/-- C22: the page scan computes its reference definition.  For every page `L`, budget `n`
and time `t`, with `W` the longest prefix of `L` whose listings were all created strictly
after `t`: `processFeedListings` returns the first `n` listings of `W` and a stop when
`n > 0` and `W` has at least `n` listings, and otherwise `W` with a stop exactly when `W` is
shorter than `L`.  So the output is a prefix of `L`, and the stop flag is false only when the
whole page was kept and the budget was not reached. -/
theorem C22_page_scan_reference (L : List TicketListing) (n : Int) (t : Time) :
    processFeedListings L n t = processFeedListingsRef L n t ∧
    (L.takeWhile (fun l => decide (t < l.CreatedAt.Time)) <+: L ∧
      (∀ x ∈ L.takeWhile (fun l => decide (t < l.CreatedAt.Time)), t < x.CreatedAt.Time) ∧
      ∀ Q : List TicketListing, Q <+: L → (∀ x ∈ Q, t < x.CreatedAt.Time) →
        Q <+: L.takeWhile (fun l => decide (t < l.CreatedAt.Time))) ∧
    (processFeedListings L n t).1 <+: L ∧
    ((processFeedListings L n t).2 = false →
      (processFeedListings L n t).1 = L ∧ ¬ (0 < n ∧ n ≤ (L.length : Int))) := by
  refine ⟨processFeedListings_ref L n t, ⟨List.takeWhile_prefix _, ?_, ?_⟩, ?_, ?_⟩
  · intro x hx
    have := List.mem_takeWhile_imp hx
    simpa using this
  · intro Q hQ hall
    exact takeWhile_longest _ L Q hQ (fun x hx => by simpa using hall x hx)
  · rw [processFeedListings_ref]
    unfold processFeedListingsRef
    split_ifs
    · exact (List.take_prefix _ _).trans (List.takeWhile_prefix _)
    · exact List.takeWhile_prefix _
  · intro hflag
    have h := processFeedListings_no_stop L n t (processFeedListings L n t).1
      (by rw [← hflag])
    exact ⟨h.1, fun hc => by have := h.2 hc.1; omega⟩

/-- C22 on a page of five listings with budget 3: the scan and the reference both give the
first three listings and a stop. -/
theorem C22_page_scan_reference_witness :
    processFeedListings (mockFeed 100 5) 3 0 = processFeedListingsRef (mockFeed 100 5) 3 0 ∧
      processFeedListingsRef (mockFeed 100 5) 3 0 = ((mockFeed 100 5).take 3, true) :=
  ⟨(C22_page_scan_reference (mockFeed 100 5) 3 0).1, by decide⟩

/-- C23: count-bounded fetches always terminate.  For every environment (also one that
serves the same non-empty page for ever) and every input with `MaxNumber = N > 0`, with or
without `CreatedAfter`, `FetchTicketListings` makes at most `N` page fetches, and with fuel
for `N` iterations the loop has ended. -/
theorem C23_count_bounded_terminates (w : Env) (c : Client)
    (input : FetchTicketListingsInput) (N : Nat) (hN : input.MaxNumber = (N : Int))
    (hNpos : 0 < N) :
    (∀ fuel : Nat, (FetchTicketListings w c input fuel).2.length ≤ N) ∧
    (∀ fuel : Nat, N ≤ fuel → (FetchTicketListings w c input fuel).1 ≠ .running) := by
  have hN' : (applyDefaults w input).MaxNumber = (N : Int) := by
    rw [applyDefaults_MaxNumber, if_neg (by omega), hN]
  have key : ∀ fuel : Nat, (FetchTicketListings w c input fuel).2.length ≤ N ∧
      (N ≤ fuel → (FetchTicketListings w c input fuel).1 ≠ .running) := by
    intro fuel
    cases hv : Validate w (applyDefaults w input) with
    | some e =>
      rw [fetch_of_invalid w c input fuel e hv]
      exact ⟨by simp, fun _ => by simp⟩
    | none =>
      by_cases hcap : (applyDefaults w input).MaxNumber < 0 ∨
          w.MakeLimit < (applyDefaults w input).MaxNumber
      · rw [fetch_of_alloc_panic w c input fuel hv hcap]
        exact ⟨by simp, fun _ => by simp⟩
      · rw [fetch_of_alloc_ok w c input fuel hv hcap, hN']
        have h := loop_terminates w c (applyDefaults w input) N hN' fuel [] []
          (applyDefaults w input).CreatedBefore (by simpa using hNpos)
        simp only [List.length_nil, Nat.cast_zero, sub_zero, Nat.sub_zero, zero_add] at h
        exact h
  exact ⟨fun fuel => (key fuel).1, fun fuel => (key fuel).2⟩

/-- C23 on a feed that serves the same page for ever: with `MaxNumber = 5` the fetch has
ended within 5 iterations, after 2 page fetches. -/
theorem C23_count_bounded_terminates_witness :
    (FetchTicketListings repeatingEnv mockClient inputFive 5).2.length = 2 ∧
      (FetchTicketListings repeatingEnv mockClient inputFive 5).1 ≠ .running :=
  ⟨by decide,
    (C23_count_bounded_terminates repeatingEnv mockClient inputFive 5 (by decide)
      (by decide)).2 5 (by decide)⟩

/-- C24: the cursor update never indexes an empty accumulator.  For every environment and
input, the loop never panics from any state, so `FetchTicketListings` never fails with an
index out of range; and whenever an iteration reaches the cursor update (a non-empty page
whose scan does not ask to stop), the page was appended whole, the accumulator has a last
listing, which is the last listing of that page, and the next iteration requests the page at
its creation time. -/
theorem C24_cursor_update_in_range (w : Env) (c : Client)
    (input : FetchTicketListingsInput) :
    (∀ (fuel : Nat) (log : List String) (acc : TicketListings) (cursor : Time) (rem : Int)
        (msg : String),
      (FetchTicketListings.loop w c input fuel log acc cursor rem).1 ≠ .panicked msg) ∧
    (∀ fuel : Nat,
      (FetchTicketListings w c input fuel).1 ≠ .panicked "index out of range [-1]") ∧
    (∀ (fuel : Nat) (log : List String) (acc : TicketListings) (cursor : Time) (rem : Int)
        (url : String) (nl : Option TicketListings) (log' : List String)
        (processed : List TicketListing),
      w.FeedUrl ⟨c.apiKey, input.Country, input.Regions, cursor⟩ = .ok url →
      FetchTicketListingsByFeedUrl w log url = ((nl, none), log') →
      sliceLen nl ≠ 0 →
      processFeedListings (sliceItems nl) rem input.CreatedAfter = (processed, false) →
      processed = sliceItems nl ∧
      ∃ last : TicketListing, processed.getLast? = some last ∧
        (acc ++ processed).getLast? = some last ∧
        FetchTicketListings.loop w c input (fuel + 1) log acc cursor rem =
          FetchTicketListings.loop w c input fuel log' (acc ++ processed)
            last.CreatedAt.Time (input.MaxNumber - ((acc ++ processed).length : Int))) := by
  refine ⟨loop_never_panics w c input, ?_, ?_⟩
  · intro fuel
    cases hv : Validate w (applyDefaults w input) with
    | some e =>
      rw [fetch_of_invalid w c input fuel e hv]
      simp
    | none =>
      by_cases hcap : (applyDefaults w input).MaxNumber < 0 ∨
          w.MakeLimit < (applyDefaults w input).MaxNumber
      · rw [fetch_of_alloc_panic w c input fuel hv hcap]
        simp only [ne_eq, Outcome.panicked.injEq]
        decide
      · rw [fetch_of_alloc_ok w c input fuel hv hcap]
        exact loop_never_panics w c _ _ _ _ _ _ _
  · intro fuel log acc cursor rem url nl log' processed hurl hfetch hlen hproc
    have hwhole := (processFeedListings_no_stop _ _ _ _ hproc).1
    have hne : processed ≠ [] := by
      intro hp
      rw [hp] at hwhole
      apply hlen
      cases nl with
      | none => rfl
      | some xs =>
        simp only [sliceItems] at hwhole
        simp [sliceLen, ← hwhole]
    have hlast : processed.getLast? = some (processed.getLast hne) :=
      List.getLast?_eq_getLast _ hne
    have hlast' : (acc ++ processed).getLast? = some (processed.getLast hne) := by
      rw [List.getLast?_append_of_ne_nil _ hne, hlast]
    exact ⟨hwhole, processed.getLast hne, hlast, hlast',
      loop_continue w c input fuel log acc cursor rem url nl log' processed _ hurl hfetch
        hlen hproc hlast'⟩

/-- C24 on a feed that serves the same page of three listings: the first iteration keeps the
whole page, and the second page is requested at the creation time 97 of its last listing. -/
theorem C24_cursor_update_in_range_witness :
    [mockListing "a" 99 "event", mockListing "b" 98 "event", mockListing "c" 97 "event"] =
        sliceItems (some [mockListing "a" 99 "event", mockListing "b" 98 "event",
          mockListing "c" 97 "event"]) ∧
      ∃ last : TicketListing,
        [mockListing "a" 99 "event", mockListing "b" 98 "event",
          mockListing "c" 97 "event"].getLast? = some last ∧
        ([] ++ [mockListing "a" 99 "event", mockListing "b" 98 "event",
          mockListing "c" 97 "event"]).getLast? = some last ∧
        FetchTicketListings.loop repeatingEnv mockClient inputFive (1 + 1) [] [] 100 5 =
          FetchTicketListings.loop repeatingEnv mockClient inputFive 1 ["feed"]
            ([] ++ [mockListing "a" 99 "event", mockListing "b" 98 "event",
              mockListing "c" 97 "event"])
            last.CreatedAt.Time
            (inputFive.MaxNumber - ((([] : TicketListings) ++ [mockListing "a" 99 "event",
              mockListing "b" 98 "event", mockListing "c" 97 "event"]).length : Int)) :=
  (C24_cursor_update_in_range repeatingEnv mockClient inputFive).2.2 1 [] [] 100 5 "feed"
    (some [mockListing "a" 99 "event", mockListing "b" 98 "event",
      mockListing "c" 97 "event"]) ["feed"]
    [mockListing "a" 99 "event", mockListing "b" 98 "event", mockListing "c" 97 "event"]
    rfl rfl (by decide) (by decide)

/-- C25, the claim fails: `ValidateURL` rejects the URL "https://solver.example:8191", whose
scheme is https, with the error "url scheme unsupported: https", and accepts "ftp://host";
"http://0.0.0.0:8191" is accepted. -/
theorem C25_validate_url_scheme_test :
    ValidateURL sampleUrlLib "https://solver.example:8191" =
      some (.new "url scheme unsupported: https") ∧
    ValidateURL sampleUrlLib "ftp://host" = none ∧
    ValidateURL sampleUrlLib "http://0.0.0.0:8191" = none :=
  ⟨by decide, by decide, by decide⟩


end Twigots
